import Mathlib

/-!
Verification of the orchestration core of the Attorney-General.AI repository.

The Lean definitions below are a shallow embedding of the Python sources:

* `attorney_general/memory/memory_store.py`      (`MemoryStore`)
* `attorney_general/controller/agent_registry.py` (`AgentRegistry`)
* `attorney_general/controller/state_manager.py`  (`StateManager`)
* `attorney_general/events/event_stream.py`       (`EventStream`)
* `attorney_general/security/validator.py`        (`SecurityValidator`)
* `attorney_general/controller/router.py`         (`Router`)

Python dicts are modelled as insertion-ordered association lists, matching
CPython's guaranteed key ordering.  Timestamps are passed in as abstract
string parameters.  Remote I/O (worker HTTP responses) is modelled as
environment data supplied to the router function.
-/

namespace AG

/-! ## Insertion-ordered association lists (Python `dict`)

`upsert` models `d[k] = v` (update in place if the key exists, otherwise
append, preserving insertion order), `delKey` models `del d[k]`, and
`alookup` models `d.get(k)`. -/

variable {β : Type _}

/-- `d.get(k)` on an insertion-ordered dict. -/
def alookup (k : String) : List (String × β) → Option β
  | [] => none
  | (k', v) :: rest => if k' = k then some v else alookup k rest

/-- `d[k] = v` on an insertion-ordered dict: overwrite in place, else append. -/
def upsert (k : String) (v : β) : List (String × β) → List (String × β)
  | [] => [(k, v)]
  | (k', v') :: rest => if k' = k then (k, v) :: rest else (k', v') :: upsert k v rest

/-- `del d[k]` on an insertion-ordered dict (key assumed present at most once). -/
def delKey (k : String) : List (String × β) → List (String × β)
  | [] => []
  | (k', v') :: rest => if k' = k then rest else (k', v') :: delKey k rest

/-- The keys of a dict, in insertion order. -/
def keysOf (l : List (String × β)) : List String := l.map Prod.fst

@[simp] theorem alookup_nil (k : String) : alookup k ([] : List (String × β)) = none := rfl

@[simp] theorem alookup_upsert_self (k : String) (v : β) (l : List (String × β)) :
    alookup k (upsert k v l) = some v := by
  induction l with
  | nil => simp [upsert, alookup]
  | cons p rest ih =>
    obtain ⟨k', v'⟩ := p
    by_cases h : k' = k <;> simp [upsert, alookup, h, ih]

theorem alookup_upsert_ne {k k' : String} (h : k' ≠ k) (v : β) (l : List (String × β)) :
    alookup k' (upsert k v l) = alookup k' l := by
  have hk : ¬ k = k' := fun hh => h hh.symm
  induction l with
  | nil => simp [upsert, alookup, hk]
  | cons p rest ih =>
    obtain ⟨k₀, v₀⟩ := p
    by_cases h0 : k₀ = k
    · subst h0
      simp [upsert, alookup, hk]
    · simp only [upsert, h0, if_neg h0, alookup]
      by_cases h1 : k₀ = k' <;> simp [h1, ih]

theorem alookup_delKey_ne {k k' : String} (h : k' ≠ k) (l : List (String × β)) :
    alookup k' (delKey k l) = alookup k' l := by
  have hk : ¬ k = k' := fun hh => h hh.symm
  induction l with
  | nil => simp [delKey]
  | cons p rest ih =>
    obtain ⟨k₀, v₀⟩ := p
    by_cases h0 : k₀ = k
    · subst h0
      simp [delKey, alookup, hk]
    · simp only [delKey, if_neg h0, alookup]
      by_cases h1 : k₀ = k' <;> simp [h1, ih]

theorem alookup_eq_none_iff (k : String) (l : List (String × β)) :
    alookup k l = none ↔ k ∉ keysOf l := by
  induction l with
  | nil => simp [keysOf]
  | cons p rest ih =>
    obtain ⟨k₀, v₀⟩ := p
    by_cases h0 : k₀ = k
    · subst h0; simp [alookup, keysOf]
    · have h0' : ¬ k = k₀ := fun hh => h0 hh.symm
      simp only [alookup, if_neg h0, keysOf, List.map_cons, List.mem_cons]
      rw [ih]
      simp [keysOf, h0']

theorem alookup_isSome_iff (k : String) (l : List (String × β)) :
    (alookup k l).isSome ↔ k ∈ keysOf l := by
  rcases h : alookup k l with _ | v
  · simp [(alookup_eq_none_iff k l).mp h]
  · have : ¬ alookup k l = none := by simp [h]
    rw [alookup_eq_none_iff] at this
    simpa using this

theorem keysOf_upsert (k : String) (v : β) (l : List (String × β)) :
    keysOf (upsert k v l) = if k ∈ keysOf l then keysOf l else keysOf l ++ [k] := by
  induction l with
  | nil => simp [upsert, keysOf]
  | cons p rest ih =>
    obtain ⟨k₀, v₀⟩ := p
    by_cases h0 : k₀ = k
    · subst h0; simp [upsert, keysOf]
    · have hne : ¬ k = k₀ := fun hh => h0 hh.symm
      simp only [upsert, if_neg h0, keysOf, List.map_cons, List.mem_cons]
      rw [show (List.map Prod.fst (upsert k v rest)) = keysOf (upsert k v rest) from rfl, ih]
      by_cases hmem : k ∈ keysOf rest <;>
        · simp only [keysOf] at hmem
          simp [keysOf, hmem, hne]

theorem keysOf_delKey (k : String) (l : List (String × β)) :
    keysOf (delKey k l) = (keysOf l).erase k := by
  induction l with
  | nil => simp [delKey, keysOf]
  | cons p rest ih =>
    obtain ⟨k₀, v₀⟩ := p
    by_cases h0 : k₀ = k
    · subst h0; simp [delKey, keysOf, List.erase_cons]
    · have h0' : ¬ k₀ = k := h0
      simp only [delKey, if_neg h0, keysOf, List.map_cons, List.erase_cons]
      rw [show (List.map Prod.fst (delKey k rest)) = keysOf (delKey k rest) from rfl, ih]
      simp [keysOf, h0']

theorem nodup_keys_upsert (k : String) (v : β) {l : List (String × β)}
    (h : (keysOf l).Nodup) : (keysOf (upsert k v l)).Nodup := by
  rw [keysOf_upsert]
  by_cases hmem : k ∈ keysOf l
  · simpa [hmem] using h
  · simp only [hmem, if_false]
    exact List.Nodup.append h (by simp) (by simpa using hmem)

theorem nodup_keys_delKey (k : String) {l : List (String × β)}
    (h : (keysOf l).Nodup) : (keysOf (delKey k l)).Nodup := by
  rw [keysOf_delKey]; exact h.erase k

theorem alookup_delKey_self {k : String} {l : List (String × β)}
    (h : (keysOf l).Nodup) : alookup k (delKey k l) = none := by
  rw [alookup_eq_none_iff, keysOf_delKey, h.mem_erase_iff]
  simp

theorem mem_keys_delKey {k k' : String} {l : List (String × β)}
    (h : (keysOf l).Nodup) : k' ∈ keysOf (delKey k l) ↔ k' ∈ keysOf l ∧ k' ≠ k := by
  rw [keysOf_delKey, h.mem_erase_iff]
  tauto

theorem mem_keys_upsert (k k' : String) (v : β) (l : List (String × β)) :
    k' ∈ keysOf (upsert k v l) ↔ k' ∈ keysOf l ∨ k' = k := by
  rw [keysOf_upsert]
  by_cases hmem : k ∈ keysOf l
  · simp only [hmem, if_true]
    constructor
    · exact Or.inl
    · rintro (h | rfl)
      · exact h
      · exact hmem
  · simp [hmem]

/-! ## Memory Store (`attorney_general/memory/memory_store.py`)

The store keeps three dicts keyed by conversation id: `_short_term_memory`,
`_long_term_memory` and `_condensed_memory`, with capacities
`max_short_term_items` (N) and `max_long_term_items` (M). -/

/-- The Python slice `l[-m:]`.  Note the degenerate case: for `m = 0`,
`l[-0:]` is `l[0:]`, i.e. the whole list, not the empty list. -/
def pyLastSlice (m : Nat) (l : List α) : List α :=
  if m = 0 then l else l.drop (l.length - m)

/-- One call of `MemoryStore.add_to_short_term_memory` acting on the two
tiers of a single conversation (the id-existence guard is handled by the
keyed store below).  Mirrors memory_store.py lines 108-121: append, then if
the short-term size exceeds N, pop the oldest into long-term and re-apply
the long-term cap M via the slice `[-M:]`. -/
def addShortStep (N M : Nat) (st lt : List α) (x : α) : List α × List α :=
  let st' := st ++ [x]
  if N < st'.length then
    match st' with
    | [] => ([], lt)
    | oldest :: rest =>
      let lt' := lt ++ [oldest]
      (rest, if M < lt'.length then pyLastSlice M lt' else lt')
  else (st', lt)

/-- A whole sequence of `add_to_short_term_memory` calls on one conversation. -/
def addAllShort (N M : Nat) (p : List α × List α) (xs : List α) : List α × List α :=
  xs.foldl (fun q x => addShortStep N M q.1 q.2 x) p

theorem pyLastSlice_length (m : Nat) (l : List α) :
    (pyLastSlice m l).length = if m = 0 then l.length else min m l.length := by
  unfold pyLastSlice
  by_cases h : m = 0 <;> simp [h]
  omega

theorem capIf_eq_pyLastSlice (m : Nat) (l : List α) :
    (if m < l.length then pyLastSlice m l else l) = pyLastSlice m l := by
  by_cases h : m < l.length
  · simp [h]
  · simp only [if_neg h]
    unfold pyLastSlice
    by_cases h0 : m = 0 <;> simp [h0]
    have : l.length - m = 0 := by omega
    simp [this]

theorem pyLastSlice_append_absorb (m : Nat) (a b : List α) :
    pyLastSlice m (pyLastSlice m a ++ b) = pyLastSlice m (a ++ b) := by
  unfold pyLastSlice
  by_cases h0 : m = 0
  · simp [h0]
  · simp only [if_neg h0]
    by_cases h1 : a.length ≤ m
    · have ha : a.length - m = 0 := by omega
      simp [ha]
    · have hlen : (a.drop (a.length - m)).length = m := by
        simp
        omega
      rw [List.drop_append_eq_append_drop, List.drop_append_eq_append_drop,
        List.drop_drop]
      simp only [List.length_append, hlen, List.length_drop]
      congr 2 <;> omega

theorem pyLastSlice_of_le {m : Nat} {l : List α} (h : l.length ≤ m ∨ m = 0) :
    pyLastSlice m l = l := by
  unfold pyLastSlice
  rcases h with h | h
  · by_cases h0 : m = 0
    · simp [h0]
    · have hz : l.length - m = 0 := by omega
      simp [h0, hz]
  · simp [h]

/-- Closed form for a sequence of `add_to_short_term_memory` calls: the
short-term tier keeps the newest `N` items of `st ++ xs`, and the long-term
tier receives the evicted prefix, capped by the slice `[-M:]`. -/
theorem addAllShort_char (N M : Nat) :
    ∀ (xs st lt : List α), st.length ≤ N → (lt.length ≤ M ∨ M = 0) →
      addAllShort N M (st, lt) xs =
        ((st ++ xs).drop (st.length + xs.length - N),
         pyLastSlice M (lt ++ (st ++ xs).take (st.length + xs.length - N))) := by
  intro xs
  induction xs with
  | nil =>
    intro st lt hst hlt
    have h1 : st.length - N = 0 := by omega
    simp [addAllShort, h1, pyLastSlice_of_le hlt]
  | cons x xs' ih =>
    intro st lt hst hlt
    have hstep : addAllShort N M (st, lt) (x :: xs') =
        addAllShort N M (addShortStep N M st lt x) xs' := by
      simp [addAllShort]
    rw [hstep]
    by_cases hc : N < (st ++ [x]).length
    · -- eviction step: the short-term tier was full
      have hstN : st.length = N := by
        simp at hc
        omega
      rcases hx : st ++ [x] with _ | ⟨oldest, rest⟩
      · exact absurd hx (by simp)
      · have hrest : rest.length = N := by
          have := congrArg List.length hx
          simp at this
          omega
        have hstepval : addShortStep N M st lt x =
            (rest, pyLastSlice M (lt ++ [oldest])) := by
          simp only [addShortStep, hx, if_pos (hx ▸ hc)]
          rw [capIf_eq_pyLastSlice]
        rw [hstepval]
        have hlt' : (pyLastSlice M (lt ++ [oldest])).length ≤ M ∨ M = 0 := by
          by_cases h0 : M = 0
          · right; exact h0
          · left
            rw [pyLastSlice_length]
            simp [h0]
        rw [ih rest (pyLastSlice M (lt ++ [oldest])) (by omega) hlt']
        have hsplit : st ++ x :: xs' = oldest :: (rest ++ xs') := by
          rw [show st ++ x :: xs' = (st ++ [x]) ++ xs' by simp, hx]
          rfl
        rw [Prod.mk.injEq]
        constructor
        · rw [hsplit]
          have h2 : st.length + (xs'.length + 1) - N = xs'.length + 1 := by omega
          have h3 : rest.length + xs'.length - N = xs'.length := by omega
          simp only [List.length_cons, h2, h3, List.drop_succ_cons]
        · rw [hsplit]
          have h2 : st.length + (xs'.length + 1) - N = xs'.length + 1 := by omega
          have h3 : rest.length + xs'.length - N = xs'.length := by omega
          simp only [List.length_cons, h2, h3, List.take_succ_cons]
          rw [show lt ++ oldest :: (rest ++ xs').take xs'.length =
            (lt ++ [oldest]) ++ (rest ++ xs').take xs'.length by simp]
          rw [pyLastSlice_append_absorb]
    · -- no eviction: just append
      have hstepval : addShortStep N M st lt x = (st ++ [x], lt) := by
        simp only [addShortStep, if_neg hc]
      rw [hstepval]
      have hlen : (st ++ [x]).length ≤ N := by
        simp at hc ⊢
        omega
      rw [ih (st ++ [x]) lt hlen hlt]
      have hsplit : st ++ x :: xs' = (st ++ [x]) ++ xs' := by simp
      rw [Prod.mk.injEq]
      constructor
      · rw [hsplit]
        congr 1
        simp
        omega
      · rw [hsplit]
        congr 2
        simp
        omega

/-! ### The keyed store and its mutating operations -/

/-- A memory item `{type, content, timestamp}`. -/
structure MItem where
  itemType : String
  content : String
  timestamp : String
deriving DecidableEq, Repr

/-- The condensed tier `{summary, key_points, last_updated}`. -/
structure Condensed where
  summary : String
  keyPoints : List String
  lastUpdated : String
deriving DecidableEq, Repr

/-- `MemoryStore.__init__`: three dicts keyed by conversation id, plus the
two capacities `max_short_term_items` and `max_long_term_items`. -/
structure MemoryStore where
  shortTerm : List (String × List MItem)
  longTerm : List (String × List MItem)
  condensed : List (String × Condensed)
  maxShort : Nat
  maxLong : Nat
deriving DecidableEq

/-- A fresh store (`MemoryStore.__init__`). -/
def MemoryStore.init (n m : Nat) : MemoryStore :=
  { shortTerm := [], longTerm := [], condensed := [], maxShort := n, maxLong := m }

/-- The default condensed tier `{"summary": "", "key_points": [], "last_updated": now}`. -/
def emptyCondensed (now : String) : Condensed :=
  { summary := "", keyPoints := [], lastUpdated := now }

/-- `MemoryStore.create_memory`: no-op if the conversation already has
memory, otherwise initialize all three tiers. -/
def MemoryStore.create_memory (s : MemoryStore) (cid now : String) : MemoryStore :=
  if cid ∈ keysOf s.shortTerm then s
  else
    { s with
      shortTerm := upsert cid [] s.shortTerm
      longTerm := upsert cid [] s.longTerm
      condensed := upsert cid (emptyCondensed now) s.condensed }

/-- `MemoryStore.add_to_short_term_memory`: guarded on the short-term key;
appends and applies the eviction/cap step.  (When the conversation is
present in `shortTerm` but, contrary to the proven keying invariant, absent
from `longTerm`, CPython would raise `KeyError` on the long-term append;
that unreachable branch is modelled as an append to an empty bucket.) -/
def MemoryStore.add_to_short_term_memory (s : MemoryStore) (cid : String) (item : MItem) :
    Bool × MemoryStore :=
  if cid ∉ keysOf s.shortTerm then (false, s)
  else
    let st := (alookup cid s.shortTerm).getD []
    let lt := (alookup cid s.longTerm).getD []
    let p := addShortStep s.maxShort s.maxLong st lt item
    (true, { s with
      shortTerm := upsert cid p.1 s.shortTerm
      longTerm := upsert cid p.2 s.longTerm })

/-- `MemoryStore.add_to_long_term_memory`: guarded on the long-term key;
appends directly and applies the cap slice `[-M:]`. -/
def MemoryStore.add_to_long_term_memory (s : MemoryStore) (cid : String) (item : MItem) :
    Bool × MemoryStore :=
  if cid ∉ keysOf s.longTerm then (false, s)
  else
    let lt := (alookup cid s.longTerm).getD [] ++ [item]
    let lt' := if s.maxLong < lt.length then pyLastSlice s.maxLong lt else lt
    (true, { s with longTerm := upsert cid lt' s.longTerm })

/-- `MemoryStore.update_condensed_memory`: guarded on the condensed key;
overwrites only the provided fields and always refreshes `last_updated`. -/
def MemoryStore.update_condensed_memory (s : MemoryStore) (cid : String)
    (summary : Option String) (keyPoints : Option (List String)) (now : String) :
    Bool × MemoryStore :=
  match alookup cid s.condensed with
  | none => (false, s)
  | some c =>
    let c :=
      { summary := summary.getD c.summary
        keyPoints := keyPoints.getD c.keyPoints
        lastUpdated := now : Condensed }
    (true, { s with condensed := upsert cid c s.condensed })

/-- `MemoryStore.clear_memory`: guarded on the short-term key; resets all
three tiers to empty/default while keeping the entry. -/
def MemoryStore.clear_memory (s : MemoryStore) (cid now : String) : Bool × MemoryStore :=
  if cid ∉ keysOf s.shortTerm then (false, s)
  else
    (true, { s with
      shortTerm := upsert cid [] s.shortTerm
      longTerm := upsert cid [] s.longTerm
      condensed := upsert cid (emptyCondensed now) s.condensed })

/-- `MemoryStore.delete_memory`: guarded on the short-term key; removes the
entry from all three tiers. -/
def MemoryStore.delete_memory (s : MemoryStore) (cid : String) : Bool × MemoryStore :=
  if cid ∉ keysOf s.shortTerm then (false, s)
  else
    (true, { s with
      shortTerm := delKey cid s.shortTerm
      longTerm := delKey cid s.longTerm
      condensed := delKey cid s.condensed })

/-- The dict passed to `MemoryStore.import_memory`. -/
structure MemoryData where
  conversationId : Option String
  shortTerm : Option (List MItem)
  longTerm : Option (List MItem)
  condensed : Option Condensed

/-- `MemoryStore.import_memory`: requires a `conversation_id` field and
overwrites all three tiers with the provided data (defaults if missing). -/
def MemoryStore.import_memory (s : MemoryStore) (d : MemoryData) (now : String) :
    Bool × MemoryStore :=
  match d.conversationId with
  | none => (false, s)
  | some cid =>
    (true, { s with
      shortTerm := upsert cid (d.shortTerm.getD []) s.shortTerm
      longTerm := upsert cid (d.longTerm.getD []) s.longTerm
      condensed := upsert cid (d.condensed.getD (emptyCondensed now)) s.condensed })

/-- One mutating operation on the Memory Store (the read-only operations
`get_memory`, `search_memory`, `export_memory`, ... do not change state). -/
inductive MemOp where
  | create (cid now : String)
  | addShort (cid : String) (item : MItem)
  | addLong (cid : String) (item : MItem)
  | updCondensed (cid : String) (summary : Option String)
      (keyPoints : Option (List String)) (now : String)
  | clear (cid now : String)
  | delete (cid : String)
  | importM (d : MemoryData) (now : String)

/-- Apply one mutating operation (discarding the returned status flag). -/
def applyMemOp (s : MemoryStore) : MemOp → MemoryStore
  | .create cid now => s.create_memory cid now
  | .addShort cid item => (s.add_to_short_term_memory cid item).2
  | .addLong cid item => (s.add_to_long_term_memory cid item).2
  | .updCondensed cid sm kp now => (s.update_condensed_memory cid sm kp now).2
  | .clear cid now => (s.clear_memory cid now).2
  | .delete cid => (s.delete_memory cid).2
  | .importM d now => (s.import_memory d now).2

/-- Run a sequence of mutating operations from a fresh store. -/
def runMemOps (n m : Nat) (ops : List MemOp) : MemoryStore :=
  ops.foldl applyMemOp (MemoryStore.init n m)

/-- The keying invariant of the three tiers: every conversation id is
present in either all three dicts or none, and each dict has no duplicate
keys. -/
structure MemKeysInv (s : MemoryStore) : Prop where
  shortLong : ∀ cid, cid ∈ keysOf s.shortTerm ↔ cid ∈ keysOf s.longTerm
  shortCond : ∀ cid, cid ∈ keysOf s.shortTerm ↔ cid ∈ keysOf s.condensed
  nodupShort : (keysOf s.shortTerm).Nodup
  nodupLong : (keysOf s.longTerm).Nodup
  nodupCond : (keysOf s.condensed).Nodup

theorem memKeysInv_init (n m : Nat) : MemKeysInv (MemoryStore.init n m) := by
  constructor <;> simp [MemoryStore.init, keysOf]

theorem memKeysInv_applyMemOp {s : MemoryStore} (h : MemKeysInv s) (op : MemOp) :
    MemKeysInv (applyMemOp s op) := by
  obtain ⟨hsl, hsc, hns, hnl, hnc⟩ := h
  cases op with
  | create cid now =>
    show MemKeysInv (s.create_memory cid now)
    unfold MemoryStore.create_memory
    by_cases hmem : cid ∈ keysOf s.shortTerm
    · rw [if_pos hmem]
      exact ⟨hsl, hsc, hns, hnl, hnc⟩
    · rw [if_neg hmem]
      refine ⟨?_, ?_, nodup_keys_upsert _ _ hns, nodup_keys_upsert _ _ hnl,
        nodup_keys_upsert _ _ hnc⟩
      · intro c; rw [mem_keys_upsert, mem_keys_upsert, hsl c]
      · intro c; rw [mem_keys_upsert, mem_keys_upsert, hsc c]
  | addShort cid item =>
    show MemKeysInv (s.add_to_short_term_memory cid item).2
    unfold MemoryStore.add_to_short_term_memory
    by_cases hmem : cid ∈ keysOf s.shortTerm
    · rw [if_neg (not_not_intro hmem)]
      refine ⟨?_, ?_, nodup_keys_upsert _ _ hns, nodup_keys_upsert _ _ hnl, hnc⟩
      · intro c; rw [mem_keys_upsert, mem_keys_upsert, hsl c]
      · intro c
        rw [mem_keys_upsert, ← hsc c]
        constructor
        · rintro (hc | rfl)
          · exact hc
          · exact hmem
        · exact Or.inl
    · rw [if_pos hmem]
      exact ⟨hsl, hsc, hns, hnl, hnc⟩
  | addLong cid item =>
    show MemKeysInv (s.add_to_long_term_memory cid item).2
    unfold MemoryStore.add_to_long_term_memory
    by_cases hmem : cid ∈ keysOf s.longTerm
    · rw [if_neg (not_not_intro hmem)]
      refine ⟨?_, hsc, hns, nodup_keys_upsert _ _ hnl, hnc⟩
      intro c
      rw [mem_keys_upsert, hsl c]
      constructor
      · exact Or.inl
      · rintro (hc | rfl)
        · exact hc
        · exact hmem
    · rw [if_pos hmem]
      exact ⟨hsl, hsc, hns, hnl, hnc⟩
  | updCondensed cid sm kp now =>
    show MemKeysInv (s.update_condensed_memory cid sm kp now).2
    unfold MemoryStore.update_condensed_memory
    rcases hlk : alookup cid s.condensed with _ | c
    · exact ⟨hsl, hsc, hns, hnl, hnc⟩
    · have hmem : cid ∈ keysOf s.condensed := by
        rw [← alookup_isSome_iff, hlk]
        rfl
      refine ⟨hsl, ?_, hns, hnl, nodup_keys_upsert _ _ hnc⟩
      intro c'
      rw [mem_keys_upsert, ← hsc c']
      constructor
      · exact Or.inl
      · rintro (hc | heq)
        · exact hc
        · rw [heq]
          exact (hsc _).mpr hmem
  | clear cid now =>
    show MemKeysInv (s.clear_memory cid now).2
    unfold MemoryStore.clear_memory
    by_cases hmem : cid ∈ keysOf s.shortTerm
    · rw [if_neg (not_not_intro hmem)]
      refine ⟨?_, ?_, nodup_keys_upsert _ _ hns, nodup_keys_upsert _ _ hnl,
        nodup_keys_upsert _ _ hnc⟩
      · intro c; rw [mem_keys_upsert, mem_keys_upsert, hsl c]
      · intro c; rw [mem_keys_upsert, mem_keys_upsert, hsc c]
    · rw [if_pos hmem]
      exact ⟨hsl, hsc, hns, hnl, hnc⟩
  | delete cid =>
    show MemKeysInv (s.delete_memory cid).2
    unfold MemoryStore.delete_memory
    by_cases hmem : cid ∈ keysOf s.shortTerm
    · rw [if_neg (not_not_intro hmem)]
      refine ⟨?_, ?_, nodup_keys_delKey _ hns, nodup_keys_delKey _ hnl,
        nodup_keys_delKey _ hnc⟩
      · intro c; rw [mem_keys_delKey hns, mem_keys_delKey hnl, hsl c]
      · intro c; rw [mem_keys_delKey hns, mem_keys_delKey hnc, hsc c]
    · rw [if_pos hmem]
      exact ⟨hsl, hsc, hns, hnl, hnc⟩
  | importM d now =>
    show MemKeysInv (s.import_memory d now).2
    unfold MemoryStore.import_memory
    rcases d.conversationId with _ | cid
    · exact ⟨hsl, hsc, hns, hnl, hnc⟩
    · refine ⟨?_, ?_, nodup_keys_upsert _ _ hns, nodup_keys_upsert _ _ hnl,
        nodup_keys_upsert _ _ hnc⟩
      · intro c; rw [mem_keys_upsert, mem_keys_upsert, hsl c]
      · intro c; rw [mem_keys_upsert, mem_keys_upsert, hsc c]

theorem memKeysInv_foldl (ops : List MemOp) :
    ∀ s : MemoryStore, MemKeysInv s → MemKeysInv (ops.foldl applyMemOp s) := by
  induction ops with
  | nil => intro s h; exact h
  | cons op rest ih =>
    intro s h
    exact ih (applyMemOp s op) (memKeysInv_applyMemOp h op)

theorem memKeysInv_runMemOps (n m : Nat) (ops : List MemOp) :
    MemKeysInv (runMemOps n m ops) :=
  memKeysInv_foldl ops _ (memKeysInv_init n m)

/-! ### Claim theorems for the Memory Store -/

/-- C2 (amended): for a conversation whose memory has been created and any
sequence of `add_to_short_term_memory` calls, the short-term tier never
exceeds `N` items; each append past capacity evicts the oldest short-term
item, in eviction order, onto the tail of the long-term tier, which is
capped at `M` items with the oldest dropped — provided `M ≥ 1`.  (For
`M = 0` the cap fails; see the counterexample.) -/
theorem shortTerm_bound_and_spill {α : Type _} (N M : Nat) (hM : 0 < M) (xs : List α) :
    (addAllShort N M ([], []) xs).1.length ≤ N ∧
    (addAllShort N M ([], []) xs).2.length ≤ M ∧
    (addAllShort N M ([], []) xs).1 = xs.drop (xs.length - N) ∧
    (addAllShort N M ([], []) xs).2 = pyLastSlice M (xs.take (xs.length - N)) := by
  have h := addAllShort_char N M xs [] [] (by simp) (by simp)
  simp only [List.nil_append, List.length_nil, Nat.zero_add] at h
  rw [h]
  refine ⟨?_, ?_, rfl, rfl⟩
  · simp
    omega
  · rw [pyLastSlice_length]
    have hM0 : M ≠ 0 := by omega
    simp [hM0]

/-- C2 counterexample: with `max_long_term_items = 0` (and
`max_short_term_items = 0`), a single `add_to_short_term_memory` call
leaves one item in the long-term tier, above the claimed cap `M = 0`,
because the Python truncation slice `longTerm[-0:]` is the whole list. -/
theorem shortTerm_spill_cap_counterexample :
    ¬ (addAllShort 0 0 (([] : List Nat), []) [7]).2.length ≤ 0 := by decide

/-- Witness for the amended C2 theorem at `N = 1`, `M = 1`,
items `[7, 8, 9]`. -/
theorem shortTerm_bound_and_spill_witness :
    (0 : Nat) < 1 ∧
      ((addAllShort 1 1 (([] : List Nat), []) [7, 8, 9]).1.length ≤ 1 ∧
       (addAllShort 1 1 (([] : List Nat), []) [7, 8, 9]).2.length ≤ 1 ∧
       (addAllShort 1 1 (([] : List Nat), []) [7, 8, 9]).1 =
         [7, 8, 9].drop ([7, 8, 9].length - 1) ∧
       (addAllShort 1 1 (([] : List Nat), []) [7, 8, 9]).2 =
         pyLastSlice 1 ([7, 8, 9].take ([7, 8, 9].length - 1))) :=
  ⟨by decide, shortTerm_bound_and_spill 1 1 (by decide) [7, 8, 9]⟩

/-- C10: after any sequence of create/add/update/clear/delete/import
operations on a fresh Memory Store, a conversation id has a short-term
entry if and only if it has a long-term entry, and if and only if it has a
condensed entry. -/
theorem memory_tiers_keyed_consistently (n m : Nat) (ops : List MemOp) (cid : String) :
    (cid ∈ keysOf (runMemOps n m ops).shortTerm ↔
      cid ∈ keysOf (runMemOps n m ops).longTerm) ∧
    (cid ∈ keysOf (runMemOps n m ops).shortTerm ↔
      cid ∈ keysOf (runMemOps n m ops).condensed) :=
  ⟨(memKeysInv_runMemOps n m ops).shortLong cid,
   (memKeysInv_runMemOps n m ops).shortCond cid⟩

/-! ## Event Bus (`attorney_general/events/event_stream.py`)

Subscriber callbacks are arbitrary Python callables; for a single `publish`
call all that is observable is whether the callback raises, so a callback
is modelled by a `fails` flag and its invocation by an `Except` value. -/

/-- An event (the `data` payload is opaque and omitted). -/
structure BusEvent where
  eventType : String
  source : String
deriving DecidableEq

/-- A subscription entry `{type, callback, event_types}` (the subscriber
enum tag is irrelevant to delivery and omitted; the callback is modelled by
whether it raises). -/
structure BusSub where
  eventTypes : List String
  fails : Bool
deriving DecidableEq

/-- `EventStream.__init__`. -/
structure EventStream where
  subscribers : List (String × BusSub)
  history : List BusEvent
  maxHistory : Nat
deriving DecidableEq

/-- A subscriber matches when it holds the wildcard `"*"` or the event's
type (event_stream.py line 171). -/
def subMatches (eventType : String) (sub : BusSub) : Bool :=
  sub.eventTypes.contains "*" || sub.eventTypes.contains eventType

/-- Invoking a subscriber callback: either returns or raises. -/
def invokeCallback (sub : BusSub) : Except String Unit :=
  if sub.fails then Except.error "callback raised" else Except.ok ()

/-- One iteration of the delivery loop of `publish`: if the subscriber
matches, invoke its callback inside try/except — an exception is caught
and logged (recorded in the second component), and the loop continues. -/
def deliverStep (eventType : String) (acc : List String × List String)
    (p : String × BusSub) : List String × List String :=
  if subMatches eventType p.2 then
    match invokeCallback p.2 with
    | Except.ok _ => (acc.1 ++ [p.1], acc.2)
    | Except.error _ => (acc.1 ++ [p.1], acc.2 ++ [p.1])
  else acc

/-- The delivery loop of `publish` over the subscriber dict, in insertion
order.  Returns the ids whose callback was invoked and the ids whose
exception was caught. -/
def deliverLoop (eventType : String) (subs : List (String × BusSub)) :
    List String × List String :=
  subs.foldl (deliverStep eventType) ([], [])

/-- The outcome of one `publish` call. -/
structure PublishOutcome where
  stream : EventStream
  attempted : List String
  caught : List String
  ret : Bool

/-- `EventStream.publish`: append the event to the history, truncate the
history with the slice `[-max_history:]` when it overflows, deliver to each
matching subscriber independently, and return `True`. -/
def EventStream.publish (es : EventStream) (eventType : String) (source : String) :
    PublishOutcome :=
  let ev : BusEvent := { eventType := eventType, source := source }
  let hist := es.history ++ [ev]
  let hist := if es.maxHistory < hist.length then pyLastSlice es.maxHistory hist else hist
  let d := deliverLoop eventType es.subscribers
  { stream := { es with history := hist }
    attempted := d.1
    caught := d.2
    ret := true }

theorem deliverStep_char (eventType : String) (acc : List String × List String)
    (p : String × BusSub) :
    deliverStep eventType acc p =
      if subMatches eventType p.2 then
        (acc.1 ++ [p.1], if p.2.fails then acc.2 ++ [p.1] else acc.2)
      else acc := by
  unfold deliverStep invokeCallback
  by_cases hm : subMatches eventType p.2 <;> by_cases hf : p.2.fails <;> simp [hm, hf]

theorem deliverLoop_char (eventType : String) (subs : List (String × BusSub)) :
    deliverLoop eventType subs =
      ((subs.filter (fun p => subMatches eventType p.2)).map Prod.fst,
       (subs.filter (fun p => subMatches eventType p.2 && p.2.fails)).map Prod.fst) := by
  suffices h : ∀ acc : List String × List String,
      subs.foldl (deliverStep eventType) acc =
      (acc.1 ++ (subs.filter (fun p => subMatches eventType p.2)).map Prod.fst,
       acc.2 ++
         (subs.filter (fun p => subMatches eventType p.2 && p.2.fails)).map Prod.fst) by
    rw [deliverLoop, h ([], [])]
    simp
  induction subs with
  | nil => intro acc; simp
  | cons p rest ih =>
    intro acc
    rw [List.foldl_cons, deliverStep_char, ih]
    by_cases hm : subMatches eventType p.2 <;> by_cases hf : p.2.fails <;>
      simp [hm, hf, List.filter_cons]

/-- C7: `publish` always reports success to the publisher; delivery is
attempted to exactly the subscribers whose subscription matches the event
type (wildcard included), in order, regardless of any callback failures;
and a raising callback is caught (it appears in the caught-and-logged
list), never propagated and never preventing delivery to the remaining
subscribers. -/
theorem publish_isolates_subscriber_failures (es : EventStream)
    (eventType source : String) :
    (es.publish eventType source).ret = true ∧
    (es.publish eventType source).attempted =
      (es.subscribers.filter (fun p => subMatches eventType p.2)).map Prod.fst ∧
    (es.publish eventType source).caught =
      (es.subscribers.filter
        (fun p => subMatches eventType p.2 && p.2.fails)).map Prod.fst ∧
    (es.publish eventType source).stream.subscribers = es.subscribers := by
  unfold EventStream.publish
  rw [deliverLoop_char]
  exact ⟨rfl, rfl, rfl, rfl⟩

/-! ## Conversation State Manager (`attorney_general/controller/state_manager.py`)

Three dicts keyed by conversation id: `_conversations`, `_messages`,
`_contexts`.  Message dicts, metadata values and context values are opaque
to the manager; they are modelled by small concrete types. -/

/-- A message `{role, content, timestamp}`. -/
structure SMMessage where
  role : String
  content : String
  timestamp : String
deriving DecidableEq, Repr

/-- Free-form metadata / context maps (values abstracted to strings). -/
abbrev SMMeta := List (String × String)

/-- A conversation record. -/
structure Conversation where
  id : String
  state : String
  createdAt : String
  updatedAt : String
  activeAgent : Option String
  metadata : SMMeta
deriving DecidableEq, Repr

/-- `StateManager.__init__`. -/
structure StateManager where
  conversations : List (String × Conversation)
  messages : List (String × List SMMessage)
  contexts : List (String × SMMeta)
deriving DecidableEq

/-- A fresh manager. -/
def StateManager.empty : StateManager :=
  { conversations := [], messages := [], contexts := [] }

/-- `StateManager.create_conversation`: idempotent — returns the existing
record if present, else creates an active conversation with empty message
list and context. -/
def StateManager.create_conversation (s : StateManager) (cid : String)
    (metadata : SMMeta) (now : String) : Conversation × StateManager :=
  match alookup cid s.conversations with
  | some c => (c, s)
  | none =>
    let c : Conversation :=
      { id := cid, state := "active", createdAt := now, updatedAt := now
        activeAgent := none, metadata := metadata }
    (c, { conversations := upsert cid c s.conversations
          messages := upsert cid [] s.messages
          contexts := upsert cid [] s.contexts })

/-- `StateManager.add_message`: fails if the conversation is unknown;
appends to the message list (created on the fly if missing) and refreshes
`updated_at`. -/
def StateManager.add_message (s : StateManager) (cid : String) (msg : SMMessage)
    (now : String) : Bool × StateManager :=
  match alookup cid s.conversations with
  | none => (false, s)
  | some c =>
    let msgs := (alookup cid s.messages).getD []
    (true, { s with
      messages := upsert cid (msgs ++ [msg]) s.messages
      conversations := upsert cid { c with updatedAt := now } s.conversations })

/-- The dict produced by `export_conversation` and consumed by
`import_conversation`.  Fields are optional because `import_conversation`
reads every field with `.get` defaults; `export_conversation` populates
them all.  (A Python record whose `active_agent` key is absent and one
whose value is `None` are indistinguishable to `.get`, so both are
`none`.) -/
structure ConvData where
  idField : Option String
  state : Option String
  createdAt : Option String
  updatedAt : Option String
  activeAgent : Option String
  metadata : Option SMMeta
  messages : Option (List SMMessage)
  context : Option SMMeta
deriving DecidableEq

/-- `StateManager.export_conversation`: `None` if the conversation is
unknown, else a copy of the record plus its messages and context. -/
def StateManager.export_conversation (s : StateManager) (cid : String) :
    Option ConvData :=
  match alookup cid s.conversations with
  | none => none
  | some c =>
    some { idField := some c.id
           state := some c.state
           createdAt := some c.createdAt
           updatedAt := some c.updatedAt
           activeAgent := c.activeAgent
           metadata := some c.metadata
           messages := some ((alookup cid s.messages).getD [])
           context := some ((alookup cid s.contexts).getD []) }

/-- `StateManager.import_conversation`: requires an `id` field; otherwise
overwrites the conversation, messages and context for that id, with
defaults for missing fields and a fresh `updated_at`. -/
def StateManager.import_conversation (s : StateManager) (d : ConvData)
    (now : String) : Bool × StateManager :=
  match d.idField with
  | none => (false, s)
  | some cid =>
    (true,
     { conversations := upsert cid
         { id := cid
           state := d.state.getD "active"
           createdAt := d.createdAt.getD now
           updatedAt := now
           activeAgent := d.activeAgent
           metadata := d.metadata.getD [] } s.conversations
       messages := upsert cid (d.messages.getD []) s.messages
       contexts := upsert cid (d.context.getD []) s.contexts })

/-- C9: exporting an existing conversation and importing the exported
record into a fresh State Manager returns `true` and reproduces an
equivalent conversation: the same id, the same message log in the same
order, and the same metadata. -/
theorem export_import_roundtrip (s : StateManager) (cid : String)
    (c : Conversation) (hc : alookup cid s.conversations = some c)
    (hid : c.id = cid) (now : String) :
    ∃ d : ConvData, s.export_conversation cid = some d ∧
      (StateManager.empty.import_conversation d now).1 = true ∧
      ∃ c' : Conversation,
        alookup cid (StateManager.empty.import_conversation d now).2.conversations =
          some c' ∧
        c'.id = c.id ∧ c'.state = c.state ∧ c'.metadata = c.metadata ∧
        alookup cid (StateManager.empty.import_conversation d now).2.messages =
          some ((alookup cid s.messages).getD []) := by
  subst hid
  refine ⟨_, by rw [StateManager.export_conversation, hc], ?_⟩
  unfold StateManager.import_conversation
  refine ⟨rfl, ?_⟩
  refine ⟨{ id := c.id, state := c.state, createdAt := c.createdAt, updatedAt := now
            activeAgent := c.activeAgent, metadata := c.metadata }, ?_, rfl, rfl, rfl, ?_⟩
  · show alookup c.id (upsert c.id _ StateManager.empty.conversations) = _
    rw [alookup_upsert_self]
    rfl
  · show alookup c.id (upsert c.id _ StateManager.empty.messages) = _
    rw [alookup_upsert_self]
    rfl

/-- A sample manager: one conversation `c1` with two messages, built with
`create_conversation` and `add_message`. -/
def sampleSM : StateManager :=
  ((((StateManager.empty.create_conversation "c1" [("model", "gpt-4")] "t0").2).add_message
      "c1" ⟨"user", "hello", "t1"⟩ "t1").2.add_message
      "c1" ⟨"assistant", "hi", "t2"⟩ "t2").2

/-- Witness for C9: the sample manager round-trips through export/import,
and its exported message log is the two messages in insertion order. -/
theorem export_import_roundtrip_witness :
    (∃ d : ConvData, sampleSM.export_conversation "c1" = some d ∧
      (StateManager.empty.import_conversation d "t3").1 = true ∧
      ∃ c' : Conversation,
        alookup "c1" (StateManager.empty.import_conversation d "t3").2.conversations =
          some c' ∧
        c'.id = "c1" ∧ c'.state = "active" ∧ c'.metadata = [("model", "gpt-4")] ∧
        alookup "c1" (StateManager.empty.import_conversation d "t3").2.messages =
          some ((alookup "c1" sampleSM.messages).getD [])) ∧
    (alookup "c1" sampleSM.messages).getD [] =
      [⟨"user", "hello", "t1"⟩, ⟨"assistant", "hi", "t2"⟩] :=
  ⟨export_import_roundtrip sampleSM "c1"
    { id := "c1", state := "active", createdAt := "t0", updatedAt := "t2"
      activeAgent := none, metadata := [("model", "gpt-4")] }
    (by decide) rfl "t3", by decide⟩

/-! ## Capability Registry (`attorney_general/controller/agent_registry.py`)

Three structures: the `_agents` dict, the `_agent_activity` dict (only its
key set matters — the values are wall-clock floats) and the
`_capability_index` dict mapping capability tags to lists of agent ids. -/

/-- An agent record as stored in `_agents`. -/
structure AgentRec where
  name : String
  url : String
  capabilities : List String
  supportsStreaming : Bool
  status : String
deriving DecidableEq, Repr

/-- `AgentRegistry.__init__`. -/
structure AgentRegistry where
  agents : List (String × AgentRec)
  activity : List String
  capIndex : List (String × List String)
deriving DecidableEq

/-- A fresh registry. -/
def AgentRegistry.emptyReg : AgentRegistry :=
  { agents := [], activity := [], capIndex := [] }

/-- The bucket of a capability tag (`_capability_index.get(c, [])`-view). -/
def bucketOf (idx : List (String × List String)) (c : String) : List String :=
  (alookup c idx).getD []

/-- The registry's bucket for a capability tag. -/
def AgentRegistry.bucket (reg : AgentRegistry) (c : String) : List String :=
  bucketOf reg.capIndex c

/-- One iteration of the registration loop over the capability list:
create the bucket if absent, then append the agent id. -/
def addCapStep (id : String) (idx : List (String × List String)) (c : String) :
    List (String × List String) :=
  match alookup c idx with
  | none => upsert c [id] idx
  | some b => upsert c (b ++ [id]) idx

/-- `AgentRegistry.register_agent`: fails if the id is already present;
otherwise stores the record, indexes every capability tag and starts
activity tracking. -/
def AgentRegistry.register_agent (reg : AgentRegistry) (id name url : String)
    (capabilities : List String) (supportsStreaming : Bool) : Bool × AgentRegistry :=
  if (alookup id reg.agents).isSome then (false, reg)
  else
    (true,
     { agents := upsert id
         { name := name, url := url, capabilities := capabilities
           supportsStreaming := supportsStreaming, status := "active" } reg.agents
       activity := if id ∈ reg.activity then reg.activity else reg.activity ++ [id]
       capIndex := capabilities.foldl (addCapStep id) reg.capIndex })

/-- One iteration of the unregistration loop: if the tag has a bucket
containing the id, remove the first occurrence (`list.remove`), deleting
the bucket if it became empty. -/
def removeCapStep (id : String) (idx : List (String × List String)) (c : String) :
    List (String × List String) :=
  match alookup c idx with
  | none => idx
  | some b =>
    if id ∈ b then
      let b' := b.erase id
      if b' = [] then delKey c idx else upsert c b' idx
    else idx

/-- `AgentRegistry.unregister_agent`: fails if unknown; otherwise removes
the id from every bucket of its recorded capabilities (pruning emptied
buckets), drops activity tracking and deletes the record. -/
def AgentRegistry.unregister_agent (reg : AgentRegistry) (id : String) :
    Bool × AgentRegistry :=
  match alookup id reg.agents with
  | none => (false, reg)
  | some a =>
    (true,
     { agents := delKey id reg.agents
       activity := if id ∈ reg.activity then reg.activity.erase id else reg.activity
       capIndex := a.capabilities.foldl (removeCapStep id) reg.capIndex })

/-- `AgentRegistry.find_agents_by_capability`. -/
def AgentRegistry.find_agents_by_capability (reg : AgentRegistry) (c : String) :
    List String :=
  (alookup c reg.capIndex).getD []

/-- One scoring update of `find_best_agent_for_task`: a first-seen agent
enters the map with score 0 and is immediately incremented. -/
def bumpScore (scores : List (String × Nat)) (id : String) : List (String × Nat) :=
  match alookup id scores with
  | none => scores ++ [(id, 1)]
  | some n => upsert id (n + 1) scores

/-- The scoring map of `find_best_agent_for_task`: one point per
occurrence of the agent in the bucket of each required capability, in
first-seen insertion order. -/
def buildScores (reg : AgentRegistry) (req : List String) : List (String × Nat) :=
  req.foldl (fun sc c => (reg.find_agents_by_capability c).foldl bumpScore sc) []

/-- Python's `max(items, key=lambda x: x[1])` over a non-empty association
list: the first entry attaining the maximal score. -/
def firstMax : List (String × Nat) → Option (String × Nat)
  | [] => none
  | p :: rest =>
    match firstMax rest with
    | none => some p
    | some q => some (if q.2 > p.2 then q else p)

/-- `AgentRegistry.find_best_agent_for_task`. -/
def AgentRegistry.find_best_agent_for_task (reg : AgentRegistry) (req : List String) :
    Option String :=
  if req.isEmpty then none
  else
    let scores := buildScores reg req
    if scores.isEmpty then none
    else (firstMax scores).map Prod.fst

/-! ### Bucket lemmas -/

theorem bucketOf_upsert_self (c : String) (v : List String)
    (idx : List (String × List String)) : bucketOf (upsert c v idx) c = v := by
  unfold bucketOf
  rw [alookup_upsert_self]
  rfl

theorem bucketOf_upsert_ne {c c' : String} (h : c' ≠ c) (v : List String)
    (idx : List (String × List String)) :
    bucketOf (upsert c v idx) c' = bucketOf idx c' := by
  unfold bucketOf
  rw [alookup_upsert_ne h]

theorem bucketOf_delKey_self {c : String} {idx : List (String × List String)}
    (h : (keysOf idx).Nodup) : bucketOf (delKey c idx) c = [] := by
  unfold bucketOf
  rw [alookup_delKey_self h]
  rfl

theorem bucketOf_delKey_ne {c c' : String} (h : c' ≠ c)
    (idx : List (String × List String)) :
    bucketOf (delKey c idx) c' = bucketOf idx c' := by
  unfold bucketOf
  rw [alookup_delKey_ne h]

theorem bucketOf_addCapStep (id : String) (idx : List (String × List String))
    (c c' : String) :
    bucketOf (addCapStep id idx c) c' =
      if c' = c then bucketOf idx c ++ [id] else bucketOf idx c' := by
  unfold addCapStep
  cases hm : alookup c idx with
  | none =>
    by_cases hc : c' = c
    · subst hc
      rw [if_pos rfl, bucketOf_upsert_self]
      unfold bucketOf
      rw [hm]
      rfl
    · rw [if_neg hc, bucketOf_upsert_ne hc]
  | some b =>
    by_cases hc : c' = c
    · subst hc
      rw [if_pos rfl, bucketOf_upsert_self]
      unfold bucketOf
      rw [hm]
      rfl
    · rw [if_neg hc, bucketOf_upsert_ne hc]

theorem nodup_keys_addCapStep (id : String) {idx : List (String × List String)}
    (h : (keysOf idx).Nodup) (c : String) : (keysOf (addCapStep id idx c)).Nodup := by
  unfold addCapStep
  cases hm : alookup c idx <;> exact nodup_keys_upsert _ _ h

theorem noEmpty_addCapStep (id : String) {idx : List (String × List String)}
    (h : ∀ c b, alookup c idx = some b → b ≠ []) (c : String) :
    ∀ c' b', alookup c' (addCapStep id idx c) = some b' → b' ≠ [] := by
  intro c' b' hb'
  unfold addCapStep at hb'
  cases hm : alookup c idx with
  | none =>
    rw [hm] at hb'
    by_cases hc : c' = c
    · subst hc
      rw [alookup_upsert_self] at hb'
      cases hb'
      simp
    · rw [alookup_upsert_ne hc] at hb'
      exact h c' b' hb'
  | some b =>
    rw [hm] at hb'
    by_cases hc : c' = c
    · subst hc
      rw [alookup_upsert_self] at hb'
      cases hb'
      simp
    · rw [alookup_upsert_ne hc] at hb'
      exact h c' b' hb'

/-- The registration loop adds one bucket occurrence of the new id per
occurrence of each capability tag, and leaves other ids untouched. -/
theorem addCaps_fold (id : String) :
    ∀ (L : List String) (idx : List (String × List String)),
      (∀ c, (bucketOf (L.foldl (addCapStep id) idx) c).count id =
        (bucketOf idx c).count id + L.count c) ∧
      (∀ id', id' ≠ id → ∀ c,
        (bucketOf (L.foldl (addCapStep id) idx) c).count id' =
          (bucketOf idx c).count id') := by
  intro L
  induction L with
  | nil => intro idx; exact ⟨fun c => by simp, fun id' _ c => by simp⟩
  | cons c0 L' ih =>
    intro idx
    rw [List.foldl_cons]
    constructor
    · intro c
      rw [(ih (addCapStep id idx c0)).1 c, bucketOf_addCapStep]
      by_cases hc : c = c0
      · subst hc
        simp [List.count_cons]
        omega
      · simp [hc, List.count_cons, fun h => hc h]
    · intro id' hne c
      rw [(ih (addCapStep id idx c0)).2 id' hne c, bucketOf_addCapStep]
      by_cases hc : c = c0
      · subst hc
        simp [List.count_append, hne]
      · simp [hc]

theorem nodup_keys_addCaps_fold (id : String) (L : List String)
    {idx : List (String × List String)} (h : (keysOf idx).Nodup) :
    (keysOf (L.foldl (addCapStep id) idx)).Nodup := by
  induction L generalizing idx with
  | nil => exact h
  | cons c0 L' ih => exact ih (nodup_keys_addCapStep id h c0)

theorem noEmpty_addCaps_fold (id : String) (L : List String)
    {idx : List (String × List String)}
    (h : ∀ c b, alookup c idx = some b → b ≠ []) :
    ∀ c b, alookup c (L.foldl (addCapStep id) idx) = some b → b ≠ [] := by
  induction L generalizing idx with
  | nil => exact h
  | cons c0 L' ih => exact ih (noEmpty_addCapStep id h c0)

/-- A bucket whose single erase of `id` empties it was exactly `[id]`. -/
theorem erase_eq_nil_of_mem {b : List String} {id : String} (hmem : id ∈ b)
    (h : b.erase id = []) : b = [id] := by
  cases b with
  | nil => cases hmem
  | cons x rest =>
    rw [List.erase_cons] at h
    by_cases hx : x = id
    · simp only [hx, beq_self_eq_true, if_true] at h
      rw [h, hx]
    · have hxid : (x == id) = false := by simp [hx]
      rw [hxid] at h
      simp at h

/-- The unregistration loop drives the id's bucket occurrences to zero,
preserves other ids' occurrences, keeps keys duplicate-free and never
leaves an empty bucket behind. -/
theorem stripCaps_fold (id : String) :
    ∀ (L : List String) (idx : List (String × List String)),
      (keysOf idx).Nodup →
      (∀ c b, alookup c idx = some b → b ≠ []) →
      (∀ c, (bucketOf idx c).count id = L.count c) →
      ((keysOf (L.foldl (removeCapStep id) idx)).Nodup ∧
       (∀ c b, alookup c (L.foldl (removeCapStep id) idx) = some b → b ≠ []) ∧
       (∀ c, (bucketOf (L.foldl (removeCapStep id) idx) c).count id = 0) ∧
       (∀ id', id' ≠ id → ∀ c,
          (bucketOf (L.foldl (removeCapStep id) idx) c).count id' =
            (bucketOf idx c).count id')) := by
  intro L
  induction L with
  | nil =>
    intro idx hnd hne hcount
    refine ⟨hnd, hne, ?_, fun id' _ c => rfl⟩
    intro c
    have := hcount c
    simpa using this
  | cons c0 L' ih =>
    intro idx hnd hne hcount
    rw [List.foldl_cons]
    -- the head bucket holds the id at least once
    have hc0 : (bucketOf idx c0).count id = L'.count c0 + 1 := by
      rw [hcount c0]
      simp [List.count_cons]
    have hpos : 0 < (bucketOf idx c0).count id := by omega
    have hidmem : id ∈ bucketOf idx c0 := List.count_pos_iff.mp hpos
    have hbsome : ∃ b, alookup c0 idx = some b := by
      rcases hh : alookup c0 idx with _ | b
      · exfalso
        unfold bucketOf at hidmem
        rw [hh] at hidmem
        cases hidmem
      · exact ⟨b, rfl⟩
    obtain ⟨b, hb⟩ := hbsome
    have hbb : bucketOf idx c0 = b := by unfold bucketOf; rw [hb]; rfl
    rw [hbb] at hidmem hc0
    have hstep : removeCapStep id idx c0 =
        if b.erase id = [] then delKey c0 idx else upsert c0 (b.erase id) idx := by
      unfold removeCapStep
      rw [hb]
      simp [hidmem]
    by_cases hdel : b.erase id = []
    · -- the bucket was exactly [id] and is pruned
      have hbid : b = [id] := erase_eq_nil_of_mem hidmem hdel
      rw [hstep, if_pos hdel]
      have hL'c0 : L'.count c0 = 0 := by
        rw [hbid] at hc0
        simp at hc0
        omega
      have hnd1 : (keysOf (delKey c0 idx)).Nodup := nodup_keys_delKey _ hnd
      have hne1 : ∀ c b', alookup c (delKey c0 idx) = some b' → b' ≠ [] := by
        intro c b' hb'
        by_cases hc : c = c0
        · subst hc
          rw [alookup_delKey_self hnd] at hb'
          cases hb'
        · rw [alookup_delKey_ne hc] at hb'
          exact hne c b' hb'
      have hcount1 : ∀ c, (bucketOf (delKey c0 idx) c).count id = L'.count c := by
        intro c
        by_cases hc : c = c0
        · subst hc
          rw [bucketOf_delKey_self hnd, hL'c0]
          rfl
        · rw [bucketOf_delKey_ne hc, hcount c]
          simp [List.count_cons, hc]
      obtain ⟨i1, i2, i3, i4⟩ := ih (delKey c0 idx) hnd1 hne1 hcount1
      refine ⟨i1, i2, i3, ?_⟩
      intro id' hne' c
      rw [i4 id' hne' c]
      by_cases hc : c = c0
      · subst hc
        rw [bucketOf_delKey_self hnd, hbb, hbid]
        simp [List.count_cons, fun h => hne' h]
      · rw [bucketOf_delKey_ne hc]
    · -- the bucket keeps other members
      rw [hstep, if_neg hdel]
      have hnd1 : (keysOf (upsert c0 (b.erase id) idx)).Nodup := nodup_keys_upsert _ _ hnd
      have hne1 : ∀ c b', alookup c (upsert c0 (b.erase id) idx) = some b' → b' ≠ [] := by
        intro c b' hb'
        by_cases hc : c = c0
        · subst hc
          rw [alookup_upsert_self] at hb'
          cases hb'
          exact hdel
        · rw [alookup_upsert_ne hc] at hb'
          exact hne c b' hb'
      have hcount1 : ∀ c, (bucketOf (upsert c0 (b.erase id) idx) c).count id = L'.count c := by
        intro c
        by_cases hc : c = c0
        · subst hc
          rw [bucketOf_upsert_self, List.count_erase_self]
          rw [hc0]
          simp
        · rw [bucketOf_upsert_ne hc, hcount c]
          simp [List.count_cons, hc]
      obtain ⟨i1, i2, i3, i4⟩ := ih (upsert c0 (b.erase id) idx) hnd1 hne1 hcount1
      refine ⟨i1, i2, i3, ?_⟩
      intro id' hne' c
      rw [i4 id' hne' c]
      by_cases hc : c = c0
      · subst hc
        rw [bucketOf_upsert_self, hbb, List.count_erase_of_ne hne']
      · rw [bucketOf_upsert_ne hc]

/-! ### The scoring map of `find_best_agent_for_task` -/

/-- Order-preserving deduplication (first occurrence kept): the key order
of a Python dict filled by first-seen insertion. -/
def seenFold (L : List String) : List String :=
  L.foldl (fun acc x => if x ∈ acc then acc else acc ++ [x]) []

theorem mem_seenFold_general (L : List String) :
    ∀ (acc : List String) (x : String),
      (x ∈ L.foldl (fun acc x => if x ∈ acc then acc else acc ++ [x]) acc ↔
        x ∈ acc ∨ x ∈ L) := by
  induction L with
  | nil => intro acc x; simp
  | cons y L' ih =>
    intro acc x
    rw [List.foldl_cons]
    by_cases hy : y ∈ acc
    · rw [if_pos hy, ih]
      constructor
      · rintro (h | h)
        · exact Or.inl h
        · exact Or.inr (List.mem_cons_of_mem y h)
      · rintro (h | h)
        · exact Or.inl h
        · rcases List.mem_cons.mp h with rfl | h
          · exact Or.inl hy
          · exact Or.inr h
    · rw [if_neg hy, ih]
      constructor
      · rintro (h | h)
        · rcases List.mem_append.mp h with h | h
          · exact Or.inl h
          · simp at h
            exact Or.inr (h ▸ List.mem_cons_self y L')
        · exact Or.inr (List.mem_cons_of_mem y h)
      · rintro (h | h)
        · exact Or.inl (List.mem_append_left _ h)
        · rcases List.mem_cons.mp h with rfl | h
          · exact Or.inl (by simp)
          · exact Or.inr h

theorem mem_seenFold (L : List String) (x : String) : x ∈ seenFold L ↔ x ∈ L := by
  rw [seenFold, mem_seenFold_general]
  simp

theorem nodup_seenFold_general (L : List String) :
    ∀ acc : List String, acc.Nodup →
      (L.foldl (fun acc x => if x ∈ acc then acc else acc ++ [x]) acc).Nodup := by
  induction L with
  | nil => intro acc h; exact h
  | cons y L' ih =>
    intro acc h
    rw [List.foldl_cons]
    by_cases hy : y ∈ acc
    · rw [if_pos hy]; exact ih acc h
    · rw [if_neg hy]
      exact ih _ (List.Nodup.append h (by simp) (by simpa using hy))

theorem nodup_seenFold (L : List String) : (seenFold L).Nodup :=
  nodup_seenFold_general L [] (by simp)

theorem seenFold_append_singleton (L : List String) (x : String) :
    seenFold (L ++ [x]) =
      if x ∈ seenFold L then seenFold L else seenFold L ++ [x] := by
  unfold seenFold
  rw [List.foldl_append]
  rfl

theorem seenFold_eq_nil_iff (L : List String) : seenFold L = [] ↔ L = [] := by
  constructor
  · intro h
    rcases L with _ | ⟨y, L'⟩
    · rfl
    · exfalso
      have : y ∈ seenFold (y :: L') := (mem_seenFold _ y).mpr (by simp)
      rw [h] at this
      cases this
  · rintro rfl
    rfl

theorem alookup_map_keys (keys : List String) (g : String → Nat) (k : String) :
    alookup k (keys.map (fun id => (id, g id))) =
      if k ∈ keys then some (g k) else none := by
  induction keys with
  | nil => simp
  | cons a rest ih =>
    by_cases ha : a = k
    · subst ha
      simp [alookup]
    · have ha' : ¬ k = a := fun h => ha h.symm
      simp only [List.map_cons, alookup, if_neg ha, ih]
      simp [ha']

theorem upsert_map_keys (keys : List String) (g : String → Nat) (x : String) (v : Nat)
    (hx : x ∈ keys) (hnd : keys.Nodup) :
    upsert x v (keys.map (fun id => (id, g id))) =
      keys.map (fun id => (id, if id = x then v else g id)) := by
  induction keys with
  | nil => cases hx
  | cons a rest ih =>
    rcases List.nodup_cons.mp hnd with ⟨hanr, hndr⟩
    by_cases ha : a = x
    · subst ha
      simp only [List.map_cons, upsert, if_pos rfl, if_true]
      congr 1
      apply List.map_congr_left
      intro b hb
      have hbx : ¬ b = a := fun h => hanr (h ▸ hb)
      simp [hbx]
    · rcases List.mem_cons.mp hx with h | h
      · exact absurd h.symm ha
      · simp only [List.map_cons, upsert, if_neg ha, ih h hndr]

theorem bumpScore_of_lookup_none {scores : List (String × Nat)} {id : String}
    (h : alookup id scores = none) : bumpScore scores id = scores ++ [(id, 1)] := by
  unfold bumpScore
  rw [h]

theorem bumpScore_of_lookup_some {scores : List (String × Nat)} {id : String} {n : Nat}
    (h : alookup id scores = some n) : bumpScore scores id = upsert id (n + 1) scores := by
  unfold bumpScore
  rw [h]

/-- The scoring fold over a flat candidate stream: keys in first-seen
order, each scored with its total occurrence count. -/
theorem foldl_bumpScore_char (L : List String) :
    L.foldl bumpScore [] = (seenFold L).map (fun id => (id, L.count id)) := by
  induction L using List.reverseRecOn with
  | nil => rfl
  | append_singleton L' x ih =>
    rw [List.foldl_append, ih, List.foldl_cons, List.foldl_nil, seenFold_append_singleton]
    by_cases hx : x ∈ seenFold L'
    · rw [if_pos hx,
        bumpScore_of_lookup_some (by rw [alookup_map_keys, if_pos hx]),
        upsert_map_keys _ _ _ _ hx (nodup_seenFold L')]
      apply List.map_congr_left
      intro b hb
      by_cases hbx : b = x
      · subst hbx
        simp [List.count_append]
      · have hcb : (L' ++ [x]).count b = L'.count b := by
          rw [List.count_append]
          simp [List.count_singleton', hbx]
        simp [hbx, hcb]
    · rw [if_neg hx,
        bumpScore_of_lookup_none (by rw [alookup_map_keys, if_neg hx]),
        List.map_append]
      congr 1
      · apply List.map_congr_left
        intro b hb
        have hbx : b ≠ x := fun h => hx (h ▸ hb)
        have hcb : (L' ++ [x]).count b = L'.count b := by
          rw [List.count_append]
          simp [List.count_singleton', hbx]
        simp [hcb]
      · have hxL' : x ∉ L' := fun h => hx ((mem_seenFold L' x).mpr h)
        have h0 : L'.count x = 0 := List.count_eq_zero.mpr hxL'
        simp [List.count_append, h0]

/-- `buildScores` is the scoring fold over the concatenation of the
buckets of the required capabilities. -/
theorem buildScores_eq_flatten (reg : AgentRegistry) (req : List String) :
    buildScores reg req =
      (req.flatMap reg.find_agents_by_capability).foldl bumpScore [] := by
  suffices h : ∀ (req : List String) (acc : List (String × Nat)),
      req.foldl (fun sc c => (reg.find_agents_by_capability c).foldl bumpScore sc) acc =
        (req.flatMap reg.find_agents_by_capability).foldl bumpScore acc by
    exact h req []
  intro req
  induction req with
  | nil => intro acc; rfl
  | cons c req' ih =>
    intro acc
    rw [List.foldl_cons, ih, List.flatMap_cons, List.foldl_append]

theorem firstMax_eq_none_iff (l : List (String × Nat)) :
    firstMax l = none ↔ l = [] := by
  cases l with
  | nil => simp [firstMax]
  | cons p rest =>
    simp only [firstMax]
    cases firstMax rest <;> simp

theorem firstMax_cons_none {r : String × Nat} {rest : List (String × Nat)}
    (h : firstMax rest = none) : firstMax (r :: rest) = some r := by
  simp [firstMax, h]

theorem firstMax_cons_some {r q : String × Nat} {rest : List (String × Nat)}
    (h : firstMax rest = some q) :
    firstMax (r :: rest) = some (if q.2 > r.2 then q else r) := by
  simp [firstMax, h]

/-- `firstMax` returns a maximal entry, and every entry before it is
strictly smaller (Python `max` keeps the earliest maximum). -/
theorem firstMax_char (l : List (String × Nat)) (p : String × Nat)
    (h : firstMax l = some p) :
    (∀ q ∈ l, q.2 ≤ p.2) ∧
      ∃ pre suf, l = pre ++ p :: suf ∧ ∀ q ∈ pre, q.2 < p.2 := by
  induction l generalizing p with
  | nil => cases h
  | cons r rest ih =>
    cases hm : firstMax rest with
    | none =>
      rw [firstMax_cons_none hm] at h
      injection h with h
      subst h
      rw [firstMax_eq_none_iff] at hm
      subst hm
      exact ⟨by simp, [], [], rfl, by simp⟩
    | some q =>
      rw [firstMax_cons_some hm] at h
      injection h with h
      obtain ⟨hmax, pre, suf, hdec, hpre⟩ := ih q hm
      by_cases hgt : q.2 > r.2
      · rw [if_pos hgt] at h
        subst h
        refine ⟨?_, r :: pre, suf, by rw [hdec]; rfl, ?_⟩
        · intro s hs
          rcases List.mem_cons.mp hs with rfl | hs
          · omega
          · exact hmax s hs
        · intro s hs
          rcases List.mem_cons.mp hs with rfl | hs
          · omega
          · exact hpre s hs
      · rw [if_neg hgt] at h
        subst h
        refine ⟨?_, [], rest, rfl, by simp⟩
        intro s hs
        rcases List.mem_cons.mp hs with rfl | hs
        · exact le_refl _
        · have := hmax s hs
          omega

/-! ### The registry invariant (reachable states) -/

/-- Invariant of reachable registry states: dict keys are duplicate-free,
the capability index holds an agent id exactly as often as the agent's
recorded capability list holds the tag (zero for unregistered ids), and no
bucket is empty. -/
structure RegInv (reg : AgentRegistry) : Prop where
  nodupAgents : (keysOf reg.agents).Nodup
  nodupIndex : (keysOf reg.capIndex).Nodup
  nodupActivity : reg.activity.Nodup
  countReg : ∀ id a, alookup id reg.agents = some a →
    ∀ c, (reg.bucket c).count id = a.capabilities.count c
  countUnreg : ∀ id, alookup id reg.agents = none →
    ∀ c, (reg.bucket c).count id = 0
  noEmpty : ∀ c b, alookup c reg.capIndex = some b → b ≠ []

theorem regInv_empty : RegInv AgentRegistry.emptyReg := by
  refine ⟨by simp [AgentRegistry.emptyReg, keysOf], by simp [AgentRegistry.emptyReg, keysOf],
    by simp [AgentRegistry.emptyReg], ?_, ?_, ?_⟩
  · intro id a h
    cases h
  · intro id _ c
    rfl
  · intro c b h
    cases h

theorem regInv_register {reg : AgentRegistry} (h : RegInv reg)
    (id name url : String) (caps : List String) (ss : Bool) :
    RegInv (reg.register_agent id name url caps ss).2 := by
  obtain ⟨hna, hni, hnact, hcr, hcu, hne⟩ := h
  unfold AgentRegistry.register_agent
  by_cases hex : (alookup id reg.agents).isSome
  · rw [if_pos hex]
    exact ⟨hna, hni, hnact, hcr, hcu, hne⟩
  · rw [if_neg hex]
    have hidnone : alookup id reg.agents = none := by
      rcases hh : alookup id reg.agents with _ | a
      · rfl
      · exact absurd (by rw [hh]; rfl) hex
    have hidkeys : id ∉ keysOf reg.agents := (alookup_eq_none_iff _ _).mp hidnone
    have hbase : ∀ c, (bucketOf reg.capIndex c).count id = 0 := hcu id hidnone
    refine ⟨?_, nodup_keys_addCaps_fold id caps hni, ?_, ?_, ?_,
      noEmpty_addCaps_fold id caps hne⟩
    · exact nodup_keys_upsert _ _ hna
    · by_cases hact : id ∈ reg.activity
      · rw [if_pos hact]
        exact hnact
      · rw [if_neg hact]
        exact List.Nodup.append hnact (by simp) (by simpa using hact)
    · intro id' a' ha' c
      show (bucketOf (caps.foldl (addCapStep id) reg.capIndex) c).count id' = _
      by_cases hid : id' = id
      · subst hid
        rw [alookup_upsert_self] at ha'
        injection ha' with ha'
        subst ha'
        rw [(addCaps_fold id' caps reg.capIndex).1 c, hbase c]
        simp
      · rw [alookup_upsert_ne hid] at ha'
        rw [(addCaps_fold id caps reg.capIndex).2 id' hid c]
        exact hcr id' a' ha' c
    · intro id' ha' c
      show (bucketOf (caps.foldl (addCapStep id) reg.capIndex) c).count id' = 0
      by_cases hid : id' = id
      · subst hid
        rw [alookup_upsert_self] at ha'
        cases ha'
      · rw [alookup_upsert_ne hid] at ha'
        rw [(addCaps_fold id caps reg.capIndex).2 id' hid c]
        exact hcu id' ha' c

theorem regInv_unregister {reg : AgentRegistry} (h : RegInv reg) (id : String) :
    RegInv (reg.unregister_agent id).2 := by
  obtain ⟨hna, hni, hnact, hcr, hcu, hne⟩ := h
  unfold AgentRegistry.unregister_agent
  rcases hh : alookup id reg.agents with _ | a
  · exact ⟨hna, hni, hnact, hcr, hcu, hne⟩
  · have hcount : ∀ c, (bucketOf reg.capIndex c).count id = a.capabilities.count c :=
      hcr id a hh
    obtain ⟨i1, i2, i3, i4⟩ := stripCaps_fold id a.capabilities reg.capIndex hni hne hcount
    have hactnd : (if id ∈ reg.activity then reg.activity.erase id else reg.activity).Nodup := by
      by_cases hact : id ∈ reg.activity
      · rw [if_pos hact]
        exact hnact.erase id
      · rw [if_neg hact]
        exact hnact
    refine ⟨nodup_keys_delKey _ hna, i1, hactnd, ?_, ?_, i2⟩
    · intro id' a' ha' c
      by_cases hid : id' = id
      · subst hid
        rw [alookup_delKey_self hna] at ha'
        cases ha'
      · rw [alookup_delKey_ne hid] at ha'
        show (bucketOf (a.capabilities.foldl (removeCapStep id) reg.capIndex) c).count id' = _
        rw [i4 id' hid c]
        exact hcr id' a' ha' c
    · intro id' ha' c
      by_cases hid : id' = id
      · subst hid
        exact i3 c
      · rw [alookup_delKey_ne hid] at ha'
        show (bucketOf (a.capabilities.foldl (removeCapStep id) reg.capIndex) c).count id' = 0
        rw [i4 id' hid c]
        exact hcu id' ha' c

/-! ### Claim theorems for the registry -/

/-- C8: on a reachable registry state, `unregister_agent` on a registered
id returns `true`, removes that id from every capability bucket, prunes
buckets left empty (no bucket is ever empty afterwards), drops its
liveness tracking, and a second call on the same id returns `false`. -/
theorem unregister_removes_id_everywhere (reg : AgentRegistry) (id : String)
    (hinv : RegInv reg) (hreg : (alookup id reg.agents).isSome) :
    (reg.unregister_agent id).1 = true ∧
    (∀ c, id ∉ (reg.unregister_agent id).2.bucket c) ∧
    id ∉ (reg.unregister_agent id).2.activity ∧
    (∀ c b, alookup c (reg.unregister_agent id).2.capIndex = some b → b ≠ []) ∧
    ((reg.unregister_agent id).2.unregister_agent id).1 = false := by
  obtain ⟨a, hh⟩ : ∃ a, alookup id reg.agents = some a := by
    rcases hx : alookup id reg.agents with _ | a
    · rw [hx] at hreg
      cases hreg
    · exact ⟨a, rfl⟩
  obtain ⟨hna, hni, hnact, hcr, hcu, hne⟩ := hinv
  have hcount : ∀ c, (bucketOf reg.capIndex c).count id = a.capabilities.count c :=
    hcr id a hh
  obtain ⟨i1, i2, i3, i4⟩ := stripCaps_fold id a.capabilities reg.capIndex hni hne hcount
  have hresult : reg.unregister_agent id =
      (true,
       { agents := delKey id reg.agents
         activity := if id ∈ reg.activity then reg.activity.erase id else reg.activity
         capIndex := a.capabilities.foldl (removeCapStep id) reg.capIndex }) := by
    unfold AgentRegistry.unregister_agent
    rw [hh]
  rw [hresult]
  refine ⟨rfl, ?_, ?_, i2, ?_⟩
  · intro c
    exact List.count_eq_zero.mp (i3 c)
  · by_cases hact : id ∈ reg.activity
    · show id ∉ (if id ∈ reg.activity then reg.activity.erase id else reg.activity)
      rw [if_pos hact]
      intro hmem
      exact ((hnact.mem_erase_iff).mp hmem).1 rfl
    · show id ∉ (if id ∈ reg.activity then reg.activity.erase id else reg.activity)
      rw [if_neg hact]
      exact hact
  · show (AgentRegistry.unregister_agent _ id).1 = false
    unfold AgentRegistry.unregister_agent
    rw [show alookup id (delKey id reg.agents) = none from alookup_delKey_self hna]

/-- A sample registry: agent `A` with capabilities `x, y`, then agent `B`
with capability `y`. -/
def sampleReg : AgentRegistry :=
  ((AgentRegistry.emptyReg.register_agent "A" "Agent A" "http://a" ["x", "y"]
      false).2.register_agent "B" "Agent B" "http://b" ["y"] true).2

/-- Witness for C8 on the sample registry. -/
theorem unregister_removes_id_everywhere_witness :
    (sampleReg.unregister_agent "A").1 = true ∧
    "A" ∉ (sampleReg.unregister_agent "A").2.bucket "x" ∧
    "A" ∉ (sampleReg.unregister_agent "A").2.bucket "y" ∧
    "A" ∉ (sampleReg.unregister_agent "A").2.activity ∧
    ((sampleReg.unregister_agent "A").2.unregister_agent "A").1 = false := by
  have hinv : RegInv sampleReg :=
    regInv_register
      (regInv_register regInv_empty "A" "Agent A" "http://a" ["x", "y"] false)
      "B" "Agent B" "http://b" ["y"] true
  have h := unregister_removes_id_everywhere sampleReg "A" hinv (by decide)
  exact ⟨h.1, h.2.1 "x", h.2.1 "y", h.2.2.1, h.2.2.2.2⟩

/-- The number of required capabilities (counted with multiplicity in the
required list) that an agent satisfies. -/
def satCount (reg : AgentRegistry) (req : List String) (id : String) : Nat :=
  req.countP (fun c => decide (id ∈ reg.bucket c))

theorem find_agents_eq_bucket (reg : AgentRegistry) (c : String) :
    reg.find_agents_by_capability c = reg.bucket c := rfl

/-- Under the registry invariant with duplicate-free capability sets, each
bucket holds an id at most once. -/
theorem bucket_count_eq_indicator (reg : AgentRegistry) (hinv : RegInv reg)
    (hcapsnd : ∀ id a, alookup id reg.agents = some a → a.capabilities.Nodup)
    (id c : String) :
    (reg.bucket c).count id = if id ∈ reg.bucket c then 1 else 0 := by
  rcases hh : alookup id reg.agents with _ | a
  · have h0 := hinv.countUnreg id hh c
    rw [h0]
    have hnm : id ∉ reg.bucket c := by
      intro hmem
      have hpos := List.count_pos_iff.mpr hmem
      omega
    simp [hnm]
  · have hc := hinv.countReg id a hh c
    have hle : a.capabilities.count c ≤ 1 :=
      List.nodup_iff_count_le_one.mp (hcapsnd id a hh) c
    by_cases hmem : id ∈ reg.bucket c
    · have hpos : 0 < (reg.bucket c).count id := List.count_pos_iff.mpr hmem
      rw [if_pos hmem]
      omega
    · rw [if_neg hmem, List.count_eq_zero.mpr hmem]

/-- An id found in any bucket is a registered agent. -/
theorem mem_bucket_registered {reg : AgentRegistry} (hinv : RegInv reg)
    {id c : String} (hc : id ∈ reg.bucket c) : id ∈ keysOf reg.agents := by
  by_contra habs
  have hnone : alookup id reg.agents = none := (alookup_eq_none_iff _ _).mpr habs
  have h0 := hinv.countUnreg id hnone c
  have hpos := List.count_pos_iff.mpr hc
  omega

/-- The occurrence count of an id in the flattened candidate stream is its
satisfaction count. -/
theorem flatten_count_eq_satCount (reg : AgentRegistry) (hinv : RegInv reg)
    (hcapsnd : ∀ id a, alookup id reg.agents = some a → a.capabilities.Nodup)
    (req : List String) (id : String) :
    (req.flatMap reg.find_agents_by_capability).count id = satCount reg req id := by
  induction req with
  | nil => rfl
  | cons c req' ih =>
    rw [List.flatMap_cons, List.count_append, ih]
    unfold satCount
    rw [List.countP_cons, find_agents_eq_bucket,
      bucket_count_eq_indicator reg hinv hcapsnd id c]
    by_cases hmem : id ∈ reg.bucket c
    · simp [hmem, satCount]
      omega
    · simp [hmem, satCount]

/-- C3: on a reachable registry state (duplicate-free capability sets, per
the data model) and a non-empty required-capability list,
`find_best_agent_for_task` returns `none` exactly when no registered agent
satisfies at least one required capability; otherwise it returns a
registered agent whose satisfaction count is positive and maximal among
all registered agents, and which is the first entry of the scoring map
(first-seen order) attaining that maximum. -/
theorem find_best_agent_spec (reg : AgentRegistry) (req : List String)
    (hinv : RegInv reg)
    (hcapsnd : ∀ id a, alookup id reg.agents = some a → a.capabilities.Nodup)
    (hreq : req ≠ []) :
    (reg.find_best_agent_for_task req = none ↔
      ∀ id ∈ keysOf reg.agents, satCount reg req id = 0) ∧
    (∀ best, reg.find_best_agent_for_task req = some best →
      best ∈ keysOf reg.agents ∧
      0 < satCount reg req best ∧
      (∀ id ∈ keysOf reg.agents, satCount reg req id ≤ satCount reg req best) ∧
      (∀ q ∈ buildScores reg req, q.2 = satCount reg req q.1) ∧
      (∃ pre suf, buildScores reg req = pre ++ (best, satCount reg req best) :: suf ∧
        ∀ q ∈ pre, q.2 < satCount reg req best)) := by
  have hcnt : ∀ id, (req.flatMap reg.find_agents_by_capability).count id =
      satCount reg req id := flatten_count_eq_satCount reg hinv hcapsnd req
  have hscores : buildScores reg req =
      (seenFold (req.flatMap reg.find_agents_by_capability)).map
        (fun id => (id, (req.flatMap reg.find_agents_by_capability).count id)) := by
    rw [buildScores_eq_flatten, foldl_bumpScore_char]
  have hfb : reg.find_best_agent_for_task req =
      (if (buildScores reg req).isEmpty then none
       else (firstMax (buildScores reg req)).map Prod.fst) := by
    unfold AgentRegistry.find_best_agent_for_task
    rw [if_neg (by simpa using hreq)]
  -- membership facts
  have hmemflat : ∀ id, id ∈ req.flatMap reg.find_agents_by_capability ↔
      ∃ c ∈ req, id ∈ reg.bucket c := by
    intro id
    rw [List.mem_flatMap]
    rfl
  have hsatpos : ∀ id, 0 < satCount reg req id ↔ ∃ c ∈ req, id ∈ reg.bucket c := by
    intro id
    unfold satCount
    rw [List.countP_pos_iff]
    simp
  have hvalues : ∀ q ∈ buildScores reg req, q.2 = satCount reg req q.1 := by
    intro q hq
    rw [hscores] at hq
    obtain ⟨id, _hid, hqeq⟩ := List.mem_map.mp hq
    rw [← hqeq]
    exact hcnt id
  constructor
  · -- the `none` characterization
    rw [hfb]
    constructor
    · intro hnone id hid
      by_cases hemp : (buildScores reg req).isEmpty
      · -- empty scoring map: the flattened stream is empty
        rw [List.isEmpty_iff] at hemp
        rw [hscores, List.map_eq_nil_iff, seenFold_eq_nil_iff] at hemp
        by_contra hpos0
        have hpos : 0 < satCount reg req id := by omega
        obtain ⟨c, hcreq, hcmem⟩ := (hsatpos id).mp hpos
        have : id ∈ req.flatMap reg.find_agents_by_capability :=
          (hmemflat id).mpr ⟨c, hcreq, hcmem⟩
        rw [hemp] at this
        cases this
      · rw [if_neg hemp] at hnone
        rcases hfm : firstMax (buildScores reg req) with _ | p
        · rw [firstMax_eq_none_iff] at hfm
          exact absurd (List.isEmpty_iff.mpr hfm) hemp
        · rw [hfm] at hnone
          cases hnone
    · intro hall
      have hflatnil : req.flatMap reg.find_agents_by_capability = [] := by
        by_contra hne
        obtain ⟨id, hid⟩ := List.exists_mem_of_ne_nil _ hne
        obtain ⟨c, hcreq, hcmem⟩ := (hmemflat id).mp hid
        have hkeys := mem_bucket_registered hinv hcmem
        have hzero := hall id hkeys
        have hpos : 0 < satCount reg req id := (hsatpos id).mpr ⟨c, hcreq, hcmem⟩
        omega
      rw [if_pos]
      rw [hscores, hflatnil]
      rfl
  · -- the `some` characterization
    intro best hbest
    rw [hfb] at hbest
    by_cases hemp : (buildScores reg req).isEmpty
    · rw [if_pos hemp] at hbest
      cases hbest
    · rw [if_neg hemp] at hbest
      rcases hfm : firstMax (buildScores reg req) with _ | p
      · rw [hfm] at hbest
        cases hbest
      · rw [hfm] at hbest
        injection hbest with hbest
        obtain ⟨hmax, pre, suf, hdec, hpre⟩ := firstMax_char _ p hfm
        have hpmem : p ∈ buildScores reg req := by
          rw [hdec]
          simp
        have hp2 : p.2 = satCount reg req p.1 := hvalues p hpmem
        have hp1flat : p.1 ∈ req.flatMap reg.find_agents_by_capability := by
          rw [hscores] at hpmem
          obtain ⟨id, hid, hqeq⟩ := List.mem_map.mp hpmem
          have : p.1 = id := by rw [← hqeq]
          rw [this]
          exact (mem_seenFold _ id).mp hid
        obtain ⟨c0, hc0req, hc0mem⟩ := (hmemflat p.1).mp hp1flat
        have hreg : p.1 ∈ keysOf reg.agents := mem_bucket_registered hinv hc0mem
        have hpos : 0 < satCount reg req p.1 := (hsatpos p.1).mpr ⟨c0, hc0req, hc0mem⟩
        subst hbest
        refine ⟨hreg, hpos, ?_, hvalues, ?_⟩
        · intro id hid
          by_cases hz : satCount reg req id = 0
          · omega
          · have hposid : 0 < satCount reg req id := by omega
            obtain ⟨c, hcreq, hcmem⟩ := (hsatpos id).mp hposid
            have hidflat : id ∈ req.flatMap reg.find_agents_by_capability :=
              (hmemflat id).mpr ⟨c, hcreq, hcmem⟩
            have hidscores : (id, satCount reg req id) ∈ buildScores reg req := by
              rw [hscores]
              refine List.mem_map.mpr ⟨id, (mem_seenFold _ id).mpr hidflat, ?_⟩
              rw [hcnt id]
            have := hmax _ hidscores
            simpa [hp2] using this
        · refine ⟨pre, suf, ?_, ?_⟩
          · rw [hdec]
            congr 1
            rw [← hp2]
          · intro q hq
            rw [← hp2]
            exact hpre q hq

theorem alookup_mem_pairs {β : Type _} {k : String} {v : β} {l : List (String × β)}
    (h : alookup k l = some v) : (k, v) ∈ l := by
  induction l with
  | nil => cases h
  | cons p rest ih =>
    obtain ⟨k0, v0⟩ := p
    unfold alookup at h
    by_cases hk : k0 = k
    · subst hk
      rw [if_pos rfl] at h
      injection h with h
      subst h
      simp
    · rw [if_neg hk] at h
      exact List.mem_cons_of_mem _ (ih h)

/-- A sample registry for capability scoring: agent `A` with capability
`a`, agent `B` with capabilities `a` and `b` (the spec's tie-free
example). -/
def sampleReg2 : AgentRegistry :=
  ((AgentRegistry.emptyReg.register_agent "A" "Agent A" "http://a" ["a"]
      false).2.register_agent "B" "Agent B" "http://b" ["a", "b"] true).2

/-- Witness for C3 on the sample registry: `B` matches both required
capabilities and beats `A`, which matches only one. -/
theorem find_best_agent_spec_witness :
    sampleReg2.find_best_agent_for_task ["a", "b"] = some "B" ∧
    "B" ∈ keysOf sampleReg2.agents ∧
    0 < satCount sampleReg2 ["a", "b"] "B" ∧
    satCount sampleReg2 ["a", "b"] "A" ≤ satCount sampleReg2 ["a", "b"] "B" := by
  have hinv : RegInv sampleReg2 :=
    regInv_register
      (regInv_register regInv_empty "A" "Agent A" "http://a" ["a"] false)
      "B" "Agent B" "http://b" ["a", "b"] true
  have hcaps : ∀ id a, alookup id sampleReg2.agents = some a → a.capabilities.Nodup := by
    intro id a h
    have hm := alookup_mem_pairs h
    rw [show sampleReg2.agents =
      [("A", ⟨"Agent A", "http://a", ["a"], false, "active"⟩),
       ("B", ⟨"Agent B", "http://b", ["a", "b"], true, "active"⟩)] from by decide] at hm
    simp only [List.mem_cons, List.not_mem_nil, or_false, Prod.mk.injEq] at hm
    rcases hm with ⟨_, ha⟩ | ⟨_, ha⟩ <;> subst ha <;> decide
  have hfb : sampleReg2.find_best_agent_for_task ["a", "b"] = some "B" := by decide
  have h := (find_best_agent_spec sampleReg2 ["a", "b"] hinv hcaps (by decide)).2 "B" hfb
  exact ⟨hfb, h.1, h.2.1, h.2.2.1 "A" (by decide)⟩

/-! ## Security Gate (`attorney_general/security/validator.py`)

The blocked patterns are regexes built only from literal characters and
`\s+`, so they are embedded as token lists and matched by a small
backtracking matcher (a model of `re.search` with `re.IGNORECASE`).  The
matcher carries fuel for structural termination; the fuel supplied at each
call site exceeds any possible recursion depth. -/

/-- A payload as the validator sees it: a string or some other object. -/
inductive PyVal where
  | str (s : String)
  | obj
deriving DecidableEq

/-- The options dict.  `stream` carries the caller's streaming intent (the
router never reads it); `optDanger` and `optBypass` are true iff the keys
read by `_check_options_safety` are present with truthy values. -/
structure Options where
  stream : Option Bool := none
  conversationId : Option String := none
  optDanger : Bool := false
  optBypass : Bool := false
deriving DecidableEq

/-- One token of a blocked-pattern regex: a literal run or `\s+`. -/
inductive PatTok where
  | lit (s : String)
  | ws
deriving DecidableEq

/-- Python's `\s` character class. -/
def isPyWs (c : Char) : Bool :=
  c = ' ' || c = '\t' || c = '\n' || c = '\r' || c = '\x0b' || c = '\x0c'

def lowerChars (l : List Char) : List Char := l.map Char.toLower

/-- Match a token list at the start of a character list (text already
lowercased).  `\s+` consumes one whitespace character and then either
continues with the rest or keeps consuming. -/
def matchToksF : Nat → List PatTok → List Char → Bool
  | 0, _, _ => false
  | _ + 1, [], _ => true
  | fuel + 1, PatTok.lit s :: rest, cs =>
      s.toList.isPrefixOf cs && matchToksF fuel rest (cs.drop s.length)
  | fuel + 1, PatTok.ws :: rest, cs =>
      match cs with
      | [] => false
      | c :: cs' =>
          isPyWs c &&
            (matchToksF fuel rest cs' || matchToksF fuel (PatTok.ws :: rest) cs')

/-- `re.search(pattern, text, re.IGNORECASE)` for literal-and-`\s+`
patterns: try a match at every suffix. -/
def reSearch (toks : List PatTok) (text : String) : Bool :=
  (lowerChars text.toList).tails.any fun t =>
    matchToksF (t.length + toks.length + 1) toks t

/-- A blocked pattern: its regex source (used in the violation message)
and its token list. -/
structure BlockedPattern where
  src : String
  toks : List PatTok
deriving DecidableEq

/-- The `_blocked_patterns` list of validator.py. -/
def blockedPatterns : List BlockedPattern :=
  [⟨"rm\\s+-rf\\s+/", [PatTok.lit "rm", PatTok.ws, PatTok.lit "-rf", PatTok.ws,
      PatTok.lit "/"]⟩,
   ⟨"sudo\\s+rm", [PatTok.lit "sudo", PatTok.ws, PatTok.lit "rm"]⟩,
   ⟨"eval\\(", [PatTok.lit "eval("]⟩,
   ⟨"exec\\(", [PatTok.lit "exec("]⟩,
   ⟨"system\\(", [PatTok.lit "system("]⟩,
   ⟨"subprocess\\.call", [PatTok.lit "subprocess.call"]⟩,
   ⟨"os\\.system", [PatTok.lit "os.system"]⟩,
   ⟨"__import__\\(", [PatTok.lit "__import__("]⟩,
   ⟨"importlib", [PatTok.lit "importlib"]⟩]

/-- The `_blocked_domains` list of validator.py. -/
def blockedDomains : List String := ["evil.com", "malware.com", "phishing.com"]

def takeNonWs (cs : List Char) : List Char := cs.takeWhile (fun c => !isPyWs c)

/-- Try to match `https?://[^\s]+` at the head of the character list;
returns the match and the remaining characters. -/
def matchUrlAt (cs : List Char) : Option (List Char × List Char) :=
  if "https://".toList.isPrefixOf cs then
    let rest := cs.drop 8
    let body := takeNonWs rest
    if body.isEmpty then none
    else some ("https://".toList ++ body, rest.drop body.length)
  else if "http://".toList.isPrefixOf cs then
    let rest := cs.drop 7
    let body := takeNonWs rest
    if body.isEmpty then none
    else some ("http://".toList ++ body, rest.drop body.length)
  else none

/-- Non-overlapping left-to-right scan, as `re.findall` does. -/
def findUrlsF : Nat → List Char → List (List Char)
  | 0, _ => []
  | _ + 1, [] => []
  | fuel + 1, c :: cs =>
    match matchUrlAt (c :: cs) with
    | some (url, rest) => url :: findUrlsF fuel rest
    | none => findUrlsF fuel cs

/-- `SecurityValidator._extract_urls`. -/
def extract_urls (text : String) : List String :=
  (findUrlsF (text.length + 1) text.toList).map fun l => String.mk l

/-- Substring test (Python's `needle in haystack`). -/
def containsSub (hay pat : List Char) : Bool :=
  hay.tails.any fun t => pat.isPrefixOf t

/-- `SecurityValidator._check_text_safety`. -/
def check_text_safety (text : String) : List String :=
  blockedPatterns.filterMap fun p =>
    if reSearch p.toks text then some ("blocked pattern: " ++ p.src) else none

/-- `SecurityValidator._check_url_safety` (string payloads only). -/
def check_url_safety (payload : PyVal) : List String :=
  match payload with
  | PyVal.str text =>
      (extract_urls text).flatMap fun url =>
        blockedDomains.filterMap fun d =>
          if containsSub (lowerChars url.toList) d.toList then
            some ("blocked domain: " ++ d)
          else none
  | PyVal.obj => []

/-- `SecurityValidator._check_options_safety`. -/
def check_options_safety (o : Options) : List String :=
  (if o.optDanger then ["unsafe option: unsafe"] else []) ++
  (if o.optBypass then ["unsafe option: bypass_security"] else [])

/-- The request dict handed to `validate_request`; `none` fields model
absent keys. -/
structure SecRequest where
  agent : Option String
  payload : Option PyVal
  model : Option String
  options : Option Options

/-- The `{safe, violations}` result (the `details` map carries the same
violations grouped by kind and is omitted). -/
structure ValidationResult where
  safe : Bool
  violations : List String
deriving DecidableEq

/-- `SecurityValidator.validate_request`. -/
def SecurityValidator.validate_request (req : SecRequest) : ValidationResult :=
  let v1 := if req.agent.isNone then ["agent missing"] else []
  let v2 := if req.payload.isNone then ["payload missing"] else []
  let v3 := match req.payload with
    | some (PyVal.str s) => check_text_safety s
    | _ => []
  let v4 := match req.payload with
    | some p => check_url_safety p
    | none => []
  let v5 := match req.options with
    | some o => check_options_safety o
    | none => []
  let vs := v1 ++ v2 ++ v3 ++ v4 ++ v5
  { safe := vs.length == 0, violations := vs }

/-! ## Dispatcher (`attorney_general/controller/router.py`)

`route_to_agent` is an async generator whose observable behaviour is the
ordered sequence of component calls and yields it performs.  It is
embedded as a pure function from its arguments and an environment (the
registry lookup result, state/memory presence, and the remote worker's
response) to a trace of effects.  Timestamps are abstract; a worker-call
exception is modelled as happening at the call itself. -/

/-- An item yielded to the caller: a parsed response dict (identified by
its content) or an error dict. -/
inductive Out where
  | item (content : String)
  | errorItem
deriving DecidableEq

/-- One observable effect of a dispatch, in program order. -/
inductive Eff where
  | publish (eventType : String)
  | createConv (cid : String)
  | updateConv (cid : String)
  | addMessage (cid : String) (role : String)
  | createMem (cid : String)
  | addShortTerm (cid : String) (itemType : String)
  | markAgentActive (agent : String)
  | workerCall (endpoint : String) (stream : Bool)
  | yieldOut (o : Out)
deriving DecidableEq

/-- One line of a worker's streamed response, as the relay loop
distinguishes them: blank after strip, not valid JSON (`json.loads`
raises), or a parsed dict with or without a `content` key. -/
inductive StreamLine where
  | empty
  | malformed
  | valid (hasContent : Bool) (content : String)
deriving DecidableEq

/-- The dispatch environment: registry lookup result, state/memory
presence for the conversation, the worker's response and whether the call
raises, and the synthesized conversation id for absent
`options.conversation_id`. -/
structure RouterEnv where
  agentInfo : Option AgentRec
  convExists : Bool
  memExists : Bool
  lines : List StreamLine
  singleResp : String
  callFails : Bool
  legacyCallFails : Bool
  nowConvId : String
deriving DecidableEq

/-- The streaming relay loop (router.py lines 187-217): blank lines are
skipped, malformed lines are logged and skipped, parsed lines are mirrored
into memory (when they carry content), published and yielded, in order. -/
def streamLoopEffs (cid : String) (lines : List StreamLine) : List Eff :=
  lines.flatMap fun l =>
    match l with
    | StreamLine.empty => []
    | StreamLine.malformed => []
    | StreamLine.valid hasContent content =>
        (if hasContent then [Eff.addShortTerm cid "response_chunk"] else []) ++
        [Eff.publish "response_chunk", Eff.yieldOut (Out.item content)]

/-- The legacy streaming relay loop (router.py lines 347-365): same
skipping, memory item type `legacy_response_chunk`, no chunk event. -/
def legacyStreamLoopEffs (cid : String) (lines : List StreamLine) : List Eff :=
  lines.flatMap fun l =>
    match l with
    | StreamLine.empty => []
    | StreamLine.malformed => []
    | StreamLine.valid hasContent content =>
        (if hasContent then [Eff.addShortTerm cid "legacy_response_chunk"] else []) ++
        [Eff.yieldOut (Out.item content)]

/-- The hard-coded legacy address table (`AGENT_URLS`). -/
def legacyAgentUrls : List (String × String) :=
  [("ThinkerAgent", "http://thinker:3001"),
   ("SearchAgent", "http://search:3002"),
   ("FileAgent", "http://file:5002"),
   ("AuthAgent", "http://auth:3003"),
   ("NotifyAgent", "http://notify:3004")]

/-- The legacy table's hard-coded streaming support. -/
def legacySupportsStreaming (agent : String) : Bool :=
  agent = "ThinkerAgent" || agent = "SearchAgent"

/-- `Router._route_legacy_agent`. -/
def routeLegacyEffs (env : RouterEnv) (agent cid : String) : List Eff :=
  if agent = "" || (alookup agent legacyAgentUrls).isNone then
    [Eff.yieldOut Out.errorItem]
  else
    [Eff.publish "legacy_system_used"] ++
    (if env.legacyCallFails then [Eff.yieldOut Out.errorItem]
     else
       [Eff.workerCall ((alookup agent legacyAgentUrls).getD "" ++ "/process")
          (legacySupportsStreaming agent)] ++
       (if legacySupportsStreaming agent then
          legacyStreamLoopEffs cid env.lines
        else
          [Eff.addShortTerm cid "legacy_response",
           Eff.yieldOut (Out.item env.singleResp)]))

/-- `Router.route_to_agent`. -/
def Router.route_to_agent (env : RouterEnv) (agent : String) (payload : PyVal)
    (model : String) (opts : Options) : List Eff :=
  let check := SecurityValidator.validate_request
    { agent := some agent, payload := some payload, model := some model
      options := some opts }
  if check.safe = false then
    [Eff.yieldOut Out.errorItem, Eff.publish "security_violation"]
  else
    let cid := opts.conversationId.getD env.nowConvId
    (if env.convExists then [Eff.updateConv cid] else [Eff.createConv cid]) ++
    [Eff.addMessage cid "user"] ++
    (if env.memExists then [] else [Eff.createMem cid]) ++
    [Eff.addShortTerm cid "request"] ++
    [Eff.publish "request_started"] ++
    (match env.agentInfo with
     | none => routeLegacyEffs env agent cid
     | some info =>
       [Eff.updateConv cid, Eff.markAgentActive agent] ++
       (if env.callFails then
          [Eff.publish "agent_error", Eff.yieldOut Out.errorItem]
        else
          [Eff.workerCall (info.url ++ "/process") info.supportsStreaming] ++
          (if info.supportsStreaming then
             streamLoopEffs cid env.lines
           else
             [Eff.addMessage cid "assistant", Eff.addShortTerm cid "response",
              Eff.publish "response_complete", Eff.yieldOut (Out.item env.singleResp)]) ++
          [Eff.updateConv cid]))

/-- The items forwarded to the caller, in order. -/
def yieldedItems (tr : List Eff) : List String :=
  tr.filterMap fun e =>
    match e with
    | Eff.yieldOut (Out.item c) => some c
    | _ => none

/-- The contents of the well-formed lines of a stream, in order. -/
def validContents (lines : List StreamLine) : List String :=
  lines.filterMap fun l =>
    match l with
    | StreamLine.valid _ c => some c
    | _ => none

/-! ### Claim theorems for the Dispatcher -/

/-- C1: a dispatch that fails the Security Gate yields exactly one error
item and no data items, publishes exactly one `security_violation` event,
never calls a worker, and performs no conversation-state, message-log or
memory effect. -/
theorem security_violation_dispatch (env : RouterEnv) (agent : String)
    (payload : PyVal) (model : String) (opts : Options)
    (hfail : (SecurityValidator.validate_request
      { agent := some agent, payload := some payload, model := some model
        options := some opts }).safe = false) :
    (Router.route_to_agent env agent payload model opts).count
        (Eff.yieldOut Out.errorItem) = 1 ∧
    (Router.route_to_agent env agent payload model opts).count
        (Eff.publish "security_violation") = 1 ∧
    yieldedItems (Router.route_to_agent env agent payload model opts) = [] ∧
    (∀ u b, Eff.workerCall u b ∉ Router.route_to_agent env agent payload model opts) ∧
    (∀ c, Eff.createConv c ∉ Router.route_to_agent env agent payload model opts) ∧
    (∀ c, Eff.updateConv c ∉ Router.route_to_agent env agent payload model opts) ∧
    (∀ c r, Eff.addMessage c r ∉ Router.route_to_agent env agent payload model opts) ∧
    (∀ c, Eff.createMem c ∉ Router.route_to_agent env agent payload model opts) ∧
    (∀ c t, Eff.addShortTerm c t ∉ Router.route_to_agent env agent payload model opts) := by
  have htr : Router.route_to_agent env agent payload model opts =
      [Eff.yieldOut Out.errorItem, Eff.publish "security_violation"] := by
    unfold Router.route_to_agent
    rw [if_pos hfail]
  rw [htr]
  refine ⟨by decide, by decide, by decide, ?_, ?_, ?_, ?_, ?_, ?_⟩ <;>
    intros <;> simp

/-- Any prefix of `P ++ y :: R` containing `y` also contains every element
of `P`. -/
theorem take_mem_order {α : Type _} (P R : List α) (x y : α)
    (hx : x ∈ P) (hy : y ∉ P) (n : Nat)
    (h : y ∈ (P ++ y :: R).take n) : x ∈ (P ++ y :: R).take n := by
  rw [List.take_append_eq_append_take] at h ⊢
  rcases List.mem_append.mp h with h | h
  · exact absurd (List.mem_of_mem_take h) hy
  · have hlen : P.length < n := by
      by_contra hle
      push_neg at hle
      have hz : n - P.length = 0 := by omega
      rw [hz, List.take_zero] at h
      cases h
    apply List.mem_append_left
    rw [List.take_of_length_le (Nat.le_of_lt hlen)]
    exact hx

/-- C6: in a dispatch that passes the Security Gate, any observation
prefix of the effect trace that contains the `request_started` publication
already contains the inbound message-log append and the inbound
short-term-memory append for that conversation. -/
theorem request_started_after_message_recorded (env : RouterEnv) (agent : String)
    (payload : PyVal) (model : String) (opts : Options)
    (hsafe : (SecurityValidator.validate_request
      { agent := some agent, payload := some payload, model := some model
        options := some opts }).safe = true) (n : Nat)
    (hpub : Eff.publish "request_started" ∈
      (Router.route_to_agent env agent payload model opts).take n) :
    Eff.addMessage (opts.conversationId.getD env.nowConvId) "user" ∈
      (Router.route_to_agent env agent payload model opts).take n ∧
    Eff.addShortTerm (opts.conversationId.getD env.nowConvId) "request" ∈
      (Router.route_to_agent env agent payload model opts).take n := by
  have hns : ¬ ((SecurityValidator.validate_request
      { agent := some agent, payload := some payload, model := some model
        options := some opts }).safe = false) := by
    rw [hsafe]
    simp
  have htr : Router.route_to_agent env agent payload model opts =
      ((if env.convExists
          then [Eff.updateConv (opts.conversationId.getD env.nowConvId)]
          else [Eff.createConv (opts.conversationId.getD env.nowConvId)]) ++
       [Eff.addMessage (opts.conversationId.getD env.nowConvId) "user"] ++
       (if env.memExists then []
        else [Eff.createMem (opts.conversationId.getD env.nowConvId)]) ++
       [Eff.addShortTerm (opts.conversationId.getD env.nowConvId) "request"]) ++
      (Eff.publish "request_started" ::
       (match env.agentInfo with
        | none => routeLegacyEffs env agent (opts.conversationId.getD env.nowConvId)
        | some info =>
          [Eff.updateConv (opts.conversationId.getD env.nowConvId),
           Eff.markAgentActive agent] ++
          (if env.callFails then
             [Eff.publish "agent_error", Eff.yieldOut Out.errorItem]
           else
             [Eff.workerCall (info.url ++ "/process") info.supportsStreaming] ++
             (if info.supportsStreaming then
                streamLoopEffs (opts.conversationId.getD env.nowConvId) env.lines
              else
                [Eff.addMessage (opts.conversationId.getD env.nowConvId) "assistant",
                 Eff.addShortTerm (opts.conversationId.getD env.nowConvId) "response",
                 Eff.publish "response_complete",
                 Eff.yieldOut (Out.item env.singleResp)]) ++
             [Eff.updateConv (opts.conversationId.getD env.nowConvId)]))) := by
    unfold Router.route_to_agent
    rw [if_neg hns]
    simp [List.append_assoc]
  rw [htr] at hpub ⊢
  have hmsg : Eff.addMessage (opts.conversationId.getD env.nowConvId) "user" ∈
      ((if env.convExists
          then [Eff.updateConv (opts.conversationId.getD env.nowConvId)]
          else [Eff.createConv (opts.conversationId.getD env.nowConvId)]) ++
       [Eff.addMessage (opts.conversationId.getD env.nowConvId) "user"] ++
       (if env.memExists then []
        else [Eff.createMem (opts.conversationId.getD env.nowConvId)]) ++
       [Eff.addShortTerm (opts.conversationId.getD env.nowConvId) "request"]) := by
    simp
  have hmem : Eff.addShortTerm (opts.conversationId.getD env.nowConvId) "request" ∈
      ((if env.convExists
          then [Eff.updateConv (opts.conversationId.getD env.nowConvId)]
          else [Eff.createConv (opts.conversationId.getD env.nowConvId)]) ++
       [Eff.addMessage (opts.conversationId.getD env.nowConvId) "user"] ++
       (if env.memExists then []
        else [Eff.createMem (opts.conversationId.getD env.nowConvId)]) ++
       [Eff.addShortTerm (opts.conversationId.getD env.nowConvId) "request"]) := by
    simp
  have hnp : Eff.publish "request_started" ∉
      ((if env.convExists
          then [Eff.updateConv (opts.conversationId.getD env.nowConvId)]
          else [Eff.createConv (opts.conversationId.getD env.nowConvId)]) ++
       [Eff.addMessage (opts.conversationId.getD env.nowConvId) "user"] ++
       (if env.memExists then []
        else [Eff.createMem (opts.conversationId.getD env.nowConvId)]) ++
       [Eff.addShortTerm (opts.conversationId.getD env.nowConvId) "request"]) := by
    split_ifs <;> simp
  exact ⟨take_mem_order _ _ _ _ hmsg hnp n hpub,
         take_mem_order _ _ _ _ hmem hnp n hpub⟩

theorem yieldedItems_append (a b : List Eff) :
    yieldedItems (a ++ b) = yieldedItems a ++ yieldedItems b := by
  unfold yieldedItems
  rw [List.filterMap_append]

/-- The streaming relay forwards exactly the parsed lines' contents, in
order: blank and malformed lines are skipped without aborting. -/
theorem yieldedItems_streamLoop (cid : String) (lines : List StreamLine) :
    yieldedItems (streamLoopEffs cid lines) = validContents lines := by
  induction lines with
  | nil => rfl
  | cons l rest ih =>
    cases l with
    | empty =>
      rw [show streamLoopEffs cid (StreamLine.empty :: rest) = streamLoopEffs cid rest
        from by simp [streamLoopEffs]]
      rw [ih]
      rfl
    | malformed =>
      rw [show streamLoopEffs cid (StreamLine.malformed :: rest) = streamLoopEffs cid rest
        from by simp [streamLoopEffs]]
      rw [ih]
      rfl
    | valid hc content =>
      have hstep : streamLoopEffs cid (StreamLine.valid hc content :: rest) =
          ((if hc then [Eff.addShortTerm cid "response_chunk"] else []) ++
           [Eff.publish "response_chunk", Eff.yieldOut (Out.item content)]) ++
          streamLoopEffs cid rest := by
        simp [streamLoopEffs]
      rw [hstep, yieldedItems_append, ih]
      cases hc <;> rfl

theorem yieldedItems_legacyStreamLoop (cid : String) (lines : List StreamLine) :
    yieldedItems (legacyStreamLoopEffs cid lines) = validContents lines := by
  induction lines with
  | nil => rfl
  | cons l rest ih =>
    cases l with
    | empty =>
      rw [show legacyStreamLoopEffs cid (StreamLine.empty :: rest) =
          legacyStreamLoopEffs cid rest from by simp [legacyStreamLoopEffs]]
      rw [ih]
      rfl
    | malformed =>
      rw [show legacyStreamLoopEffs cid (StreamLine.malformed :: rest) =
          legacyStreamLoopEffs cid rest from by simp [legacyStreamLoopEffs]]
      rw [ih]
      rfl
    | valid hc content =>
      have hstep : legacyStreamLoopEffs cid (StreamLine.valid hc content :: rest) =
          ((if hc then [Eff.addShortTerm cid "legacy_response_chunk"] else []) ++
           [Eff.yieldOut (Out.item content)]) ++
          legacyStreamLoopEffs cid rest := by
        simp [legacyStreamLoopEffs]
      rw [hstep, yieldedItems_append, ih]
      cases hc <;> rfl

theorem workerCall_not_mem_streamLoop (cid u : String) (b : Bool)
    (lines : List StreamLine) : Eff.workerCall u b ∉ streamLoopEffs cid lines := by
  intro hmem
  unfold streamLoopEffs at hmem
  obtain ⟨l, _, hl⟩ := List.mem_flatMap.mp hmem
  cases l with
  | empty => cases hl
  | malformed => cases hl
  | valid hc content =>
    rcases List.mem_append.mp hl with h | h
    · cases hc <;> simp at h
    · simp at h

/-- The trace of a gate-passing dispatch to a registered streaming worker
whose call does not raise. -/
theorem registered_streaming_trace (env : RouterEnv) (agent : String)
    (payload : PyVal) (model : String) (opts : Options) (info : AgentRec)
    (hsafe : (SecurityValidator.validate_request
      { agent := some agent, payload := some payload, model := some model
        options := some opts }).safe = true)
    (hinfo : env.agentInfo = some info)
    (hstream : info.supportsStreaming = true)
    (hok : env.callFails = false) :
    Router.route_to_agent env agent payload model opts =
      (if env.convExists
        then [Eff.updateConv (opts.conversationId.getD env.nowConvId)]
        else [Eff.createConv (opts.conversationId.getD env.nowConvId)]) ++
      [Eff.addMessage (opts.conversationId.getD env.nowConvId) "user"] ++
      (if env.memExists then []
       else [Eff.createMem (opts.conversationId.getD env.nowConvId)]) ++
      [Eff.addShortTerm (opts.conversationId.getD env.nowConvId) "request"] ++
      [Eff.publish "request_started"] ++
      [Eff.updateConv (opts.conversationId.getD env.nowConvId),
       Eff.markAgentActive agent] ++
      [Eff.workerCall (info.url ++ "/process") true] ++
      streamLoopEffs (opts.conversationId.getD env.nowConvId) env.lines ++
      [Eff.updateConv (opts.conversationId.getD env.nowConvId)] := by
  have hns : ¬ ((SecurityValidator.validate_request
      { agent := some agent, payload := some payload, model := some model
        options := some opts }).safe = false) := by
    rw [hsafe]
    simp
  unfold Router.route_to_agent
  rw [if_neg hns, hinfo, hok]
  simp [hstream]

/-- The trace of a gate-passing dispatch falling back to a known legacy
streaming worker whose call does not raise. -/
theorem legacy_streaming_trace (env : RouterEnv) (agent : String)
    (payload : PyVal) (model : String) (opts : Options)
    (hsafe : (SecurityValidator.validate_request
      { agent := some agent, payload := some payload, model := some model
        options := some opts }).safe = true)
    (hnone : env.agentInfo = none)
    (hlk : (alookup agent legacyAgentUrls).isSome)
    (hls : legacySupportsStreaming agent = true)
    (hok : env.legacyCallFails = false) :
    Router.route_to_agent env agent payload model opts =
      (if env.convExists
        then [Eff.updateConv (opts.conversationId.getD env.nowConvId)]
        else [Eff.createConv (opts.conversationId.getD env.nowConvId)]) ++
      [Eff.addMessage (opts.conversationId.getD env.nowConvId) "user"] ++
      (if env.memExists then []
       else [Eff.createMem (opts.conversationId.getD env.nowConvId)]) ++
      [Eff.addShortTerm (opts.conversationId.getD env.nowConvId) "request"] ++
      [Eff.publish "request_started"] ++
      [Eff.publish "legacy_system_used"] ++
      [Eff.workerCall ((alookup agent legacyAgentUrls).getD "" ++ "/process") true] ++
      legacyStreamLoopEffs (opts.conversationId.getD env.nowConvId) env.lines := by
  have hns : ¬ ((SecurityValidator.validate_request
      { agent := some agent, payload := some payload, model := some model
        options := some opts }).safe = false) := by
    rw [hsafe]
    simp
  have hne : ¬ agent = "" := by
    intro h
    rw [h] at hlk
    cases hlk
  have hlkn : (alookup agent legacyAgentUrls).isNone = false := by
    rcases hx : alookup agent legacyAgentUrls with _ | v
    · rw [hx] at hlk
      simp at hlk
    · rfl
  unfold Router.route_to_agent routeLegacyEffs
  rw [if_neg hns, hnone, hok]
  simp [hne, hlkn, hls]

/-- C4 (amended): for a gate-passing dispatch to a registered worker with
`supports_streaming = true` whose call does not raise, the Dispatcher
requests a stream from the worker (exactly one worker call, with
`stream = true`) and forwards one item per parsed chunk to the caller, in
order — it does not aggregate, and the caller's `options.stream` is never
consulted (the trace is identical for every value of it). -/
theorem streaming_request_forwards_every_chunk (env : RouterEnv) (agent : String)
    (payload : PyVal) (model : String) (opts : Options) (info : AgentRec)
    (hsafe : (SecurityValidator.validate_request
      { agent := some agent, payload := some payload, model := some model
        options := some opts }).safe = true)
    (hinfo : env.agentInfo = some info)
    (hstream : info.supportsStreaming = true)
    (hok : env.callFails = false) :
    (Router.route_to_agent env agent payload model opts).count
        (Eff.workerCall (info.url ++ "/process") true) = 1 ∧
    yieldedItems (Router.route_to_agent env agent payload model opts) =
      validContents env.lines ∧
    (∀ b, Router.route_to_agent env agent payload model { opts with stream := b } =
      Router.route_to_agent env agent payload model opts) := by
  have htr := registered_streaming_trace env agent payload model opts info
    hsafe hinfo hstream hok
  refine ⟨?_, ?_, fun b => rfl⟩
  · rw [htr]
    have hz : (streamLoopEffs (opts.conversationId.getD env.nowConvId) env.lines).count
        (Eff.workerCall (info.url ++ "/process") true) = 0 :=
      List.count_eq_zero.mpr (workerCall_not_mem_streamLoop _ _ _ _)
    simp [List.count_append, hz]
    split_ifs <;> simp
  · rw [htr]
    simp only [yieldedItems_append, yieldedItems_streamLoop]
    split_ifs <;> simp [yieldedItems]

/-- C4 counterexample: a registered streaming worker, a caller with
`options.stream = false`, and a two-chunk stream — the caller receives two
items, not a single aggregated one. -/
def envC4 : RouterEnv :=
  { agentInfo := some ⟨"Worker", "http://w", ["search"], true, "active"⟩
    convExists := false
    memExists := false
    lines := [StreamLine.valid true "chunk1", StreamLine.valid true "chunk2"]
    singleResp := "single"
    callFails := false
    legacyCallFails := false
    nowConvId := "conv-0" }

/-- C4 counterexample: the dispatch sends `stream: true` to the worker but
forwards both chunks — the caller does not get a single aggregated final
item. -/
theorem streaming_aggregation_counterexample :
    (Router.route_to_agent envC4 "Worker" (PyVal.str "hello") "gpt-4"
        { stream := some false }).count (Eff.workerCall "http://w/process" true) = 1 ∧
    yieldedItems (Router.route_to_agent envC4 "Worker" (PyVal.str "hello") "gpt-4"
        { stream := some false }) = ["chunk1", "chunk2"] ∧
    ¬ (yieldedItems (Router.route_to_agent envC4 "Worker" (PyVal.str "hello") "gpt-4"
        { stream := some false })).length = 1 := by
  decide

/-- Witness for the amended C4 theorem on the two-chunk environment. -/
theorem streaming_request_forwards_every_chunk_witness :
    (Router.route_to_agent envC4 "Worker" (PyVal.str "hello") "gpt-4"
        { stream := some false }).count (Eff.workerCall "http://w/process" true) = 1 ∧
    yieldedItems (Router.route_to_agent envC4 "Worker" (PyVal.str "hello") "gpt-4"
        { stream := some false }) = validContents envC4.lines ∧
    validContents envC4.lines = ["chunk1", "chunk2"] := by
  have h := streaming_request_forwards_every_chunk envC4 "Worker" (PyVal.str "hello")
    "gpt-4" { stream := some false } ⟨"Worker", "http://w", ["search"], true, "active"⟩
    (by decide) rfl rfl rfl
  exact ⟨h.1, h.2.1, by decide⟩

/-- C5: in every streaming dispatch — through the registry or the legacy
table — a malformed line is skipped without aborting the relay: the caller
receives exactly the parsed lines' items, in the order received. -/
theorem malformed_stream_lines_skipped (env : RouterEnv) (agent : String)
    (payload : PyVal) (model : String) (opts : Options)
    (hsafe : (SecurityValidator.validate_request
      { agent := some agent, payload := some payload, model := some model
        options := some opts }).safe = true) :
    (∀ info, env.agentInfo = some info → info.supportsStreaming = true →
      env.callFails = false →
      yieldedItems (Router.route_to_agent env agent payload model opts) =
        validContents env.lines) ∧
    (env.agentInfo = none → (alookup agent legacyAgentUrls).isSome →
      legacySupportsStreaming agent = true → env.legacyCallFails = false →
      yieldedItems (Router.route_to_agent env agent payload model opts) =
        validContents env.lines) := by
  constructor
  · intro info hinfo hstream hok
    rw [registered_streaming_trace env agent payload model opts info hsafe hinfo
      hstream hok]
    simp only [yieldedItems_append, yieldedItems_streamLoop]
    split_ifs <;> simp [yieldedItems]
  · intro hnone hlk hls hok
    rw [legacy_streaming_trace env agent payload model opts hsafe hnone hlk hls hok]
    simp only [yieldedItems_append, yieldedItems_legacyStreamLoop]
    split_ifs <;> simp [yieldedItems]

/-- The 3-valid / 1-malformed / 2-valid streaming environment of the spec's
testable property. -/
def envC5 : RouterEnv :=
  { agentInfo := some ⟨"Worker", "http://w", ["search"], true, "active"⟩
    convExists := false
    memExists := false
    lines := [StreamLine.valid true "v1", StreamLine.valid true "v2",
              StreamLine.valid true "v3", StreamLine.malformed,
              StreamLine.valid true "v4", StreamLine.valid true "v5"]
    singleResp := "single"
    callFails := false
    legacyCallFails := false
    nowConvId := "conv-0" }

/-- Witness for C5: 3 valid lines, one malformed line, 2 more valid lines
yield exactly the 5 well-formed items, in order. -/
theorem malformed_stream_lines_skipped_witness :
    yieldedItems (Router.route_to_agent envC5 "Worker" (PyVal.str "find contracts")
        "gpt-4" {}) = ["v1", "v2", "v3", "v4", "v5"] ∧
    (yieldedItems (Router.route_to_agent envC5 "Worker" (PyVal.str "find contracts")
        "gpt-4" {})).length = 5 := by
  have h := (malformed_stream_lines_skipped envC5 "Worker" (PyVal.str "find contracts")
    "gpt-4" {} (by decide)).1 ⟨"Worker", "http://w", ["search"], true, "active"⟩
    rfl rfl rfl
  constructor
  · rw [h]
    decide
  · rw [h]
    decide

/-- A minimal dispatch environment for the Security Gate scenarios. -/
def envC1 : RouterEnv :=
  { agentInfo := none
    convExists := false
    memExists := false
    lines := []
    singleResp := "s"
    callFails := false
    legacyCallFails := false
    nowConvId := "conv-0" }

/-- Witness for C1: a payload matching the destructive-delete denylist
pattern (`rm -rf /`) produces exactly one error item and one
`security_violation` event and touches no worker, state or memory. -/
theorem security_violation_dispatch_witness :
    (Router.route_to_agent envC1 "ThinkerAgent" (PyVal.str "rm -rf /") "gpt-4"
        {}).count (Eff.yieldOut Out.errorItem) = 1 ∧
    (Router.route_to_agent envC1 "ThinkerAgent" (PyVal.str "rm -rf /") "gpt-4"
        {}).count (Eff.publish "security_violation") = 1 ∧
    yieldedItems (Router.route_to_agent envC1 "ThinkerAgent" (PyVal.str "rm -rf /")
        "gpt-4" {}) = [] ∧
    Eff.workerCall "http://thinker:3001/process" true ∉
      Router.route_to_agent envC1 "ThinkerAgent" (PyVal.str "rm -rf /") "gpt-4" {} ∧
    Eff.addMessage "conv-0" "user" ∉
      Router.route_to_agent envC1 "ThinkerAgent" (PyVal.str "rm -rf /") "gpt-4" {} ∧
    Eff.addShortTerm "conv-0" "request" ∉
      Router.route_to_agent envC1 "ThinkerAgent" (PyVal.str "rm -rf /") "gpt-4" {} := by
  have h := security_violation_dispatch envC1 "ThinkerAgent" (PyVal.str "rm -rf /")
    "gpt-4" {} (by decide)
  exact ⟨h.1, h.2.1, h.2.2.1, h.2.2.2.1 "http://thinker:3001/process" true,
    h.2.2.2.2.2.2.1 "conv-0" "user", h.2.2.2.2.2.2.2.2 "conv-0" "request"⟩

/-- Witness for C6: in a concrete gate-passing dispatch, the observation
prefix of length 5 contains the `request_started` publication, and with it
the message-log and short-term-memory appends. -/
theorem request_started_after_message_recorded_witness :
    Eff.publish "request_started" ∈
      (Router.route_to_agent envC5 "Worker" (PyVal.str "find contracts") "gpt-4"
        {}).take 5 ∧
    Eff.addMessage "conv-0" "user" ∈
      (Router.route_to_agent envC5 "Worker" (PyVal.str "find contracts") "gpt-4"
        {}).take 5 ∧
    Eff.addShortTerm "conv-0" "request" ∈
      (Router.route_to_agent envC5 "Worker" (PyVal.str "find contracts") "gpt-4"
        {}).take 5 := by
  have h := request_started_after_message_recorded envC5 "Worker"
    (PyVal.str "find contracts") "gpt-4" {} (by decide) 5 (by decide)
  exact ⟨by decide, h.1, h.2⟩

end AG
